import Mathlib

/-!
Shallow embedding of the LoRaDB storage core (src/LoRaDB/src) and proofs
about its specified behaviour.

Modelling conventions:
* chrono `DateTime<Utc>` values are represented by their microsecond
  timestamp (`timestamp_micros`, an `i64`), the representation the storage
  keys themselves use.  No arithmetic in the modelled operations overflows
  `i64`/`u64`, so `Int`/`Nat` are used directly.
* IEEE floats (`f32`/`f64` fields, JSON numbers) are carried opaquely as
  their bit patterns; the modelled operations never compute on them.
* External library functions (the SipHash `DefaultHasher`, CRC-32,
  bincode serialization) are parameters of the model: the repository calls
  them through their documented interfaces only.
* File I/O succeeds in the model; on-disk bytes of an SSTable are
  represented by the list of `(key, frame)` entries the writer wrote.
-/

namespace LoRaDB

/-- Microsecond UTC timestamps, the representation used by the storage keys. -/
abbrev Time := Int

/-- Bit pattern of an IEEE float value, carried opaquely. -/
abbrev FloatBits := Nat

/-- Model of `serde_json::Value` (used opaquely by `src/model/decoded.rs`). -/
inductive Json where
  | null : Json
  | bool (b : Bool) : Json
  | num (bits : FloatBits) : Json
  | str (s : String) : Json
  | arr (elems : List Json) : Json
  | obj (fields : List (String × Json)) : Json

/-- Model of `DevEui` (src/model/lorawan.rs): a tuple struct around a
`String`, case preserved as given. -/
structure DevEui where
  raw : String
deriving DecidableEq

/-- Model of `char::is_ascii_hexdigit`. -/
def isAsciiHexDigit (c : Char) : Bool :=
  (48 ≤ c.toNat && c.toNat ≤ 57) || (97 ≤ c.toNat && c.toNat ≤ 102) ||
    (65 ≤ c.toNat && c.toNat ≤ 70)

/-- Model of `DevEui::validate`: exactly 16 characters, all ASCII hex digits.
Returns the success flag; the error payloads are the two messages of the
source. -/
def DevEui.validateB (e : DevEui) : Bool :=
  e.raw.length == 16 && e.raw.data.all isAsciiHexDigit

/-- Model of `DevEui::normalized`: lowercase the string.  Rust
`str::to_lowercase` agrees with per-character ASCII lowercasing on the
ASCII (hex) strings handled here; the character-list map keeps the
definition kernel-computable. -/
def DevEui.normalized (e : DevEui) : String :=
  String.mk (e.raw.data.map Char.toLower)

/-- Model of `DevEui::as_str`. -/
def DevEui.as_str (e : DevEui) : String :=
  e.raw

/-- Model of `ApplicationId` (src/model/lorawan.rs). -/
structure ApplicationId where
  raw : String
deriving DecidableEq

/-- Model of `GatewayEui` (src/model/lorawan.rs). -/
structure GatewayEui where
  raw : String
deriving DecidableEq

/-- Model of `DataRate` (src/model/lorawan.rs). -/
structure DataRate where
  modulation : String
  bandwidth : Nat
  spreading_factor : Nat
  bitrate : Option Nat
deriving DecidableEq

/-- Model of `GatewayLocation` (src/model/gateway.rs); float fields carried
as bit patterns. -/
structure GatewayLocation where
  latitude : FloatBits
  longitude : FloatBits
  altitude : Option FloatBits
deriving DecidableEq

/-- Model of `GatewayRxInfo` (src/model/gateway.rs); `snr : f32` carried as
a bit pattern, `rssi : i16` as `Int`. -/
structure GatewayRxInfo where
  gateway_id : GatewayEui
  rssi : Int
  snr : FloatBits
  channel : Nat
  rf_chain : Nat
  location : Option GatewayLocation
deriving DecidableEq

/-- Model of `DecodedPayload` (src/model/decoded.rs): an arbitrary JSON
value. -/
structure DecodedPayload where
  object : Json

/-- Model of `UplinkFrame` (src/model/frames.rs). -/
structure UplinkFrame where
  dev_eui : DevEui
  application_id : ApplicationId
  device_name : Option String
  received_at : Time
  f_port : Nat
  f_cnt : Nat
  confirmed : Bool
  adr : Bool
  dr : DataRate
  frequency : Nat
  rx_info : List GatewayRxInfo
  decoded_payload : Option DecodedPayload
  raw_payload : Option String

/-- Model of `DownlinkFrame` (src/model/frames.rs). -/
structure DownlinkFrame where
  dev_eui : DevEui
  application_id : ApplicationId
  queued_at : Time
  f_port : Nat
  f_cnt : Nat
  confirmed : Bool
  data : String
deriving DecidableEq

/-- Model of `JoinRequest` (src/model/frames.rs). -/
structure JoinRequest where
  dev_eui : DevEui
  join_eui : String
  received_at : Time
  rx_info : List GatewayRxInfo
deriving DecidableEq

/-- Model of `JoinAccept` (src/model/frames.rs). -/
structure JoinAccept where
  dev_eui : DevEui
  accepted_at : Time
  dev_addr : String
deriving DecidableEq

/-- Model of `StatusFrame` (src/model/frames.rs). -/
structure StatusFrame where
  dev_eui : DevEui
  application_id : ApplicationId
  device_name : Option String
  received_at : Time
  margin : Int
  battery_level : Nat
deriving DecidableEq

/-- Model of the `Frame` enum (src/model/frames.rs). -/
inductive Frame where
  | Uplink (f : UplinkFrame)
  | Downlink (f : DownlinkFrame)
  | JoinRequest (f : JoinRequest)
  | JoinAccept (f : JoinAccept)
  | Status (f : StatusFrame)

/-- Model of `Frame::dev_eui`. -/
def Frame.dev_eui : Frame → DevEui
  | .Uplink f => f.dev_eui
  | .Downlink f => f.dev_eui
  | .JoinRequest f => f.dev_eui
  | .JoinAccept f => f.dev_eui
  | .Status f => f.dev_eui

/-- Model of `Frame::timestamp`. -/
def Frame.timestamp : Frame → Time
  | .Uplink f => f.received_at
  | .Downlink f => f.queued_at
  | .JoinRequest f => f.received_at
  | .JoinAccept f => f.accepted_at
  | .Status f => f.received_at

/-- Model of `Frame::application_id`. -/
def Frame.application_id : Frame → Option ApplicationId
  | .Uplink f => some f.application_id
  | .Downlink f => some f.application_id
  | .Status f => some f.application_id
  | _ => none

/-- Model of `MemtableKey` (src/engine/memtable.rs): the composite ordering
key `(dev_eui, timestamp, sequence)`.  `timestamp : i64`, `sequence : u64`;
the modelled operations perform no wrapping arithmetic on them. -/
structure MemtableKey where
  dev_eui : String
  timestamp : Time
  sequence : Nat
deriving DecidableEq

/-- Lexicographic triple underlying the derived `Ord` of `MemtableKey`.
Rust derives lexicographic field-by-field comparison; byte-wise `String`
comparison and character-list lexicographic comparison agree on UTF-8
strings, so the device string is compared as its character list. -/
def MemtableKey.toLexTriple (k : MemtableKey) : (List Char) ×ₗ (Int ×ₗ Nat) :=
  toLex (k.dev_eui.data, toLex (k.timestamp, k.sequence))

theorem MemtableKey.toLexTriple_injective :
    Function.Injective MemtableKey.toLexTriple := by
  intro a b h
  cases a
  cases b
  simp only [MemtableKey.toLexTriple] at h
  have h1 := congrArg (fun p => (ofLex p).1) h
  have h2 := congrArg (fun p => (ofLex (ofLex p).2).1) h
  have h3 := congrArg (fun p => (ofLex (ofLex p).2).2) h
  simp only at h1 h2 h3
  simp_all [String.ext_iff]

/-- Linear order on keys, transported from the lexicographic triple. -/
instance : LinearOrder MemtableKey :=
  LinearOrder.lift' MemtableKey.toLexTriple MemtableKey.toLexTriple_injective

/-- Unfolded description of the strict key order. -/
theorem MemtableKey.lt_def (a b : MemtableKey) :
    a < b ↔ a.dev_eui.data < b.dev_eui.data ∨
      (a.dev_eui = b.dev_eui ∧ (a.timestamp < b.timestamp ∨
        (a.timestamp = b.timestamp ∧ a.sequence < b.sequence))) := by
  show MemtableKey.toLexTriple a < MemtableKey.toLexTriple b ↔ _
  rw [MemtableKey.toLexTriple, MemtableKey.toLexTriple, Prod.Lex.lt_iff]
  constructor
  · rintro (h | ⟨h1, h2⟩)
    · exact Or.inl h
    · rw [Prod.Lex.lt_iff] at h2
      exact Or.inr ⟨String.toList_inj.mp h1, h2⟩
  · rintro (h | ⟨h1, h2⟩)
    · exact Or.inl h
    · exact Or.inr ⟨congrArg String.data h1, (Prod.Lex.lt_iff _ _).mpr h2⟩

/-- Unfolded description of the weak key order. -/
theorem MemtableKey.le_def (a b : MemtableKey) :
    a ≤ b ↔ a.dev_eui.data < b.dev_eui.data ∨
      (a.dev_eui = b.dev_eui ∧ (a.timestamp < b.timestamp ∨
        (a.timestamp = b.timestamp ∧ a.sequence ≤ b.sequence))) := by
  show MemtableKey.toLexTriple a ≤ MemtableKey.toLexTriple b ↔ _
  rw [MemtableKey.toLexTriple, MemtableKey.toLexTriple, Prod.Lex.le_iff]
  constructor
  · rintro (h | ⟨h1, h2⟩)
    · exact Or.inl h
    · rw [Prod.Lex.le_iff] at h2
      exact Or.inr ⟨String.toList_inj.mp h1, h2⟩
  · rintro (h | ⟨h1, h2⟩)
    · exact Or.inl h
    · exact Or.inr ⟨congrArg String.data h1, (Prod.Lex.le_iff _ _).mpr h2⟩

/-- Model of `MemtableKey::new`: normalizes the device identifier. -/
def MemtableKey.new (dev : DevEui) (t : Time) (seq : Nat) : MemtableKey :=
  { dev_eui := dev.normalized, timestamp := t, sequence := seq }

/-- The value of Rust `i64::MIN`. -/
def i64Min : Int := -(2 ^ 63)

/-- The value of Rust `i64::MAX`. -/
def i64Max : Int := 2 ^ 63 - 1

/-- The value of Rust `u64::MAX`. -/
def u64Max : Nat := 2 ^ 64 - 1

/-- Model of `MemtableKey::range_start`. -/
def MemtableKey.range_start (dev : DevEui) (start_time : Option Time) :
    MemtableKey :=
  { dev_eui := dev.normalized
    timestamp := (start_time.map id).getD i64Min
    sequence := 0 }

/-- Model of `MemtableKey::range_end`. -/
def MemtableKey.range_end (dev : DevEui) (end_time : Option Time) :
    MemtableKey :=
  { dev_eui := dev.normalized
    timestamp := (end_time.map id).getD i64Max
    sequence := u64Max }

/-- Keys that lie between two bounds with the same device identifier carry
that identifier themselves. -/
theorem MemtableKey.dev_eui_of_mem_range {dev : DevEui} {s e : Option Time}
    {k : MemtableKey} (h1 : MemtableKey.range_start dev s ≤ k)
    (h2 : k ≤ MemtableKey.range_end dev e) : k.dev_eui = dev.normalized := by
  rw [MemtableKey.le_def] at h1 h2
  simp only [MemtableKey.range_start] at h1
  simp only [MemtableKey.range_end] at h2
  rcases h1 with h1 | ⟨h1, _⟩ <;> rcases h2 with h2 | ⟨h2, _⟩
  · exact absurd (lt_trans h1 h2) (lt_irrefl _)
  · rw [h2] at h1
    exact absurd h1 (lt_irrefl _)
  · rw [← h1] at h2
    exact absurd h2 (lt_irrefl _)
  · exact h1.symm

/-- Model of the `LoraDbError` enum (src/error.rs); variants carry their
message strings.  IO, JSON and bincode payloads are carried as strings. -/
inductive LoraDbError where
  | MqttError (msg : String)
  | MqttParseError (msg : String)
  | StorageError (msg : String)
  | WalError (msg : String)
  | EncryptionError (msg : String)
  | DecryptionError (msg : String)
  | InvalidFrame (msg : String)
  | InvalidDevEui (msg : String)
  | IncompatibleSStableVersion (v : Nat)
  | QueryParseError (msg : String)
  | QueryExecutionError (msg : String)
  | AuthError (msg : String)
  | ConfigError (msg : String)
  | TlsError (msg : String)
  | SerializationError (msg : String)
  | DeserializationError (msg : String)
  | IoError (msg : String)
  | JsonError (msg : String)
  | BincodeError (msg : String)
deriving DecidableEq

/-- Model of `DevEui::new`: validate, returning the error of
`DevEui::validate` on failure. -/
def DevEui.new (s : String) : Except LoraDbError DevEui :=
  if s.length == 16 then
    if s.data.all isAsciiHexDigit then .ok { raw := s }
    else .error (.InvalidDevEui ("DevEUI must contain only hex characters"))
  else .error (.InvalidDevEui ("DevEUI must be 16 hex characters"))

/-- Sorted-map insertion used to model the crossbeam `SkipMap` (and, over a
pre-sorted insertion order, `BTreeMap`): keeps the association list strictly
sorted by key, replacing the value on an equal key. -/
def sortedMapInsert (k : MemtableKey) (v : Frame) :
    List (MemtableKey × Frame) → List (MemtableKey × Frame)
  | [] => [(k, v)]
  | e :: rest =>
    if k < e.1 then (k, v) :: e :: rest
    else if k = e.1 then (k, v) :: rest
    else e :: sortedMapInsert k v rest

/-- Model of `Memtable` (src/engine/memtable.rs): the lock-free ordered map
is represented as a key-sorted association list, together with the
`sequence` counter.  The approximate `size_bytes` counter
(`std::mem::size_of_val`, a heuristic never relied on by the modelled
claims) is not carried. -/
structure Memtable where
  data : List (MemtableKey × Frame)
  sequence : Nat

/-- Model of `Memtable::new`. -/
def Memtable.new : Memtable :=
  { data := [], sequence := 0 }

/-- Model of `Memtable::insert`: key from the frame plus the fetch-added
sequence counter. -/
def Memtable.insert (m : Memtable) (frame : Frame) : Memtable :=
  let key := MemtableKey.new frame.dev_eui frame.timestamp m.sequence
  { data := sortedMapInsert key frame m.data, sequence := m.sequence + 1 }

/-- Model of `Memtable::scan_device_range`: all values in the inclusive key
range, in key order (`SkipMap::range` over the sorted representation). -/
def Memtable.scan_device_range (m : Memtable) (dev : DevEui)
    (start_time end_time : Option Time) : List Frame :=
  let start_key := MemtableKey.range_start dev start_time
  let end_key := MemtableKey.range_end dev end_time
  (m.data.filter (fun e => start_key ≤ e.1 ∧ e.1 ≤ end_key)).map Prod.snd

/-- Model of `Memtable::iter`. -/
def Memtable.iter (m : Memtable) : List (MemtableKey × Frame) :=
  m.data

/-- Model of `Memtable::is_empty`. -/
def Memtable.is_empty (m : Memtable) : Bool :=
  m.data.isEmpty

/-- Model of `Memtable::clear`. -/
def Memtable.clear (_m : Memtable) : Memtable :=
  { data := [], sequence := 0 }

/-- Model of `Memtable::delete_device`: remove every entry in the device's
full key range, returning the number removed. -/
def Memtable.delete_device (m : Memtable) (dev : DevEui) : Nat × Memtable :=
  let start_key : MemtableKey :=
    { dev_eui := dev.normalized, timestamp := i64Min, sequence := 0 }
  let end_key : MemtableKey :=
    { dev_eui := dev.normalized, timestamp := i64Max, sequence := u64Max }
  let inRange := fun (e : MemtableKey × Frame) =>
    start_key ≤ e.1 ∧ e.1 ≤ end_key
  ((m.data.filter inRange).length,
    { data := m.data.filter (fun e => ¬ inRange e), sequence := m.sequence })

/-- Model of `BloomFilter` (src/util/bloom.rs). -/
structure BloomFilter where
  bits : List Bool
  num_hash_functions : Nat
  num_bits : Nat
deriving DecidableEq

/-- Structural well-formedness established by `BloomFilter::new`: the bit
vector has exactly `num_bits` entries. -/
def BloomFilter.wf (bf : BloomFilter) : Prop :=
  bf.bits.length = bf.num_bits

/-- Model of `BloomFilter::insert`.  The 64-bit seeded `DefaultHasher` is
external to the repository and is passed in as the function `hash`. -/
def BloomFilter.insert (hash : String → Nat → Nat) (bf : BloomFilter)
    (item : String) : BloomFilter :=
  { bf with
    bits := (List.range bf.num_hash_functions).foldl
      (fun bits i => bits.set (hash item i % bf.num_bits) true) bf.bits }

/-- Model of `BloomFilter::contains`: false iff one of the `k` derived bits
is unset. -/
def BloomFilter.contains (hash : String → Nat → Nat) (bf : BloomFilter)
    (item : String) : Bool :=
  (List.range bf.num_hash_functions).all
    (fun i => bf.bits.getD (hash item i % bf.num_bits) false)

/-- Insertion of a sequence of items, front to back. -/
def BloomFilter.insertList (hash : String → Nat → Nat) (bf : BloomFilter)
    (items : List String) : BloomFilter :=
  items.foldl (fun acc x => acc.insert hash x) bf

/-- Stable insertion used to model the stable sorts of the Rust standard
library (`Vec::sort_by` / `sort_by_key`): the new element goes in front of
the first existing element it compares less-or-equal to, hence after every
earlier-inserted equal element processed later in `stableSortBy`. -/
def insertLeBy (le : α → α → Bool) (x : α) : List α → List α
  | [] => [x]
  | y :: ys => if le x y then x :: y :: ys else y :: insertLeBy le x ys

/-- Model of the stable comparison sorts of the Rust standard library.  The
concrete timsort variant is external to the repository; what the code relies
on is its contract: the result is sorted by the comparator and equal
elements keep their relative order.  Both properties are proved below for
this insertion sort. -/
def stableSortBy (le : α → α → Bool) : List α → List α
  | [] => []
  | x :: xs => insertLeBy le x (stableSortBy le xs)

/-- Boolean key comparison used when sorting `(key, frame)` pairs. -/
def keyPairLe (a b : MemtableKey × Frame) : Bool :=
  a.1 ≤ b.1

/-- Collapse adjacent runs of pairs with equal keys, keeping the last pair
of each run.  Inserting a key-sorted sequence into a `BTreeMap` (equal keys
overwrite, later inserts win) and iterating the map in key order yields
exactly this list; it models that composition in
`CompactionManager::compact`. -/
def dedupLastAdjacent : List (MemtableKey × Frame) → List (MemtableKey × Frame)
  | [] => []
  | [x] => [x]
  | x :: y :: rest =>
    if x.1 = y.1 then dedupLastAdjacent (y :: rest)
    else x :: dedupLastAdjacent (y :: rest)

/-- Model of `HashSet::insert` on string sets represented as duplicate-free
lists in insertion order. -/
def hashSetInsert (s : List String) (x : String) : List String :=
  if x ∈ s then s else s ++ [x]

/-- Model of `SSTableMetadata` (src/engine/sstable.rs).  The byte-size
fields (`data_size_bytes`, `compressed_size_bytes`) concern the LZ4-encoded
on-disk layout, which is not modelled. -/
structure SSTableMetadata where
  id : Nat
  created_at : Time
  num_entries : Nat
  min_key : MemtableKey
  max_key : MemtableKey
  bloom_filter : BloomFilter
  application_ids : List String

/-- Model of `SSTableWriter` (src/engine/sstable.rs).  The output path is
determined by `id`; accumulated entries are kept in insertion order. -/
structure SSTableWriter where
  id : Nat
  entries : List (MemtableKey × Frame)
  bloom_filter : BloomFilter
  application_ids : List String

/-- Model of `SSTableWriter::new`.  The source sizes the bloom filter from
`(10_000, 0.01)` through floating-point formulas; the resulting filter is
passed in as `bloom0`. -/
def SSTableWriter.new (id : Nat) (bloom0 : BloomFilter) : SSTableWriter :=
  { id := id, entries := [], bloom_filter := bloom0, application_ids := [] }

/-- Model of `SSTableWriter::add`: reject keys not strictly above the last
added key, otherwise record bloom membership, the application id, and the
entry. -/
def SSTableWriter.add (hash : String → Nat → Nat) (w : SSTableWriter)
    (key : MemtableKey) (frame : Frame) : Except LoraDbError SSTableWriter :=
  match w.entries.getLast? with
  | some last =>
    if key ≤ last.1 then
      .error (.StorageError ("SSTable entries must be added in sorted order"))
    else .ok
      { w with
        bloom_filter := w.bloom_filter.insert hash key.dev_eui
        application_ids :=
          match frame.application_id with
          | some a => hashSetInsert w.application_ids a.raw
          | none => w.application_ids
        entries := w.entries ++ [(key, frame)] }
  | none => .ok
      { w with
        bloom_filter := w.bloom_filter.insert hash key.dev_eui
        application_ids :=
          match frame.application_id with
          | some a => hashSetInsert w.application_ids a.raw
          | none => w.application_ids
        entries := w.entries ++ [(key, frame)] }

/-- Model of `SSTableWriter::finish`: fail on an empty writer, otherwise
produce the metadata of the written file.  The bytes written (header, bloom
filter, compressed data blocks, index, footer) are represented by the
writer's entry list, which is exactly the sequence of `(key, frame)` pairs
the data section and the index record, in order. -/
def SSTableWriter.finish (now : Time) (w : SSTableWriter) :
    Except LoraDbError SSTableMetadata :=
  match w.entries with
  | [] => .error (.StorageError ("Cannot write empty SSTable"))
  | e :: rest => .ok
    { id := w.id
      created_at := now
      num_entries := w.entries.length
      min_key := e.1
      max_key := ((e :: rest).getLast (by simp)).1
      bloom_filter := w.bloom_filter
      application_ids := w.application_ids }

/-- Model of `SSTableReader` (src/engine/sstable.rs).  `path` is the id in
the `sstable-%08u.sst` file name.  `index` pairs each index key with the
frame stored at the corresponding offset; `read_frame` (open, seek, CRC
check, LZ4 decode, bincode decode) is modelled as returning that frame. -/
structure SSTableReader where
  id : Nat
  path : Nat
  metadata : SSTableMetadata
  index : List (MemtableKey × Frame)

/-- Model of `SSTableReader::open` applied to a file just produced by
`SSTableWriter::finish` with entry list `written`.  `open` does not read an
application-id set from the file: the cached set starts empty and
`application_ids` rebuilds it lazily by scanning. -/
def SSTableReader.openFromWrite (meta : SSTableMetadata)
    (written : List (MemtableKey × Frame)) : SSTableReader :=
  { id := meta.id
    path := meta.id
    metadata := { meta with application_ids := [] }
    index := written }

/-- Model of `SSTableReader::might_contain`. -/
def SSTableReader.might_contain (hash : String → Nat → Nat)
    (r : SSTableReader) (dev : DevEui) : Bool :=
  r.metadata.bloom_filter.contains hash dev.normalized

/-- Model of `SSTableReader::iter_all`: every frame in index order. -/
def SSTableReader.iter_all (r : SSTableReader) : List Frame :=
  r.index.map Prod.snd

/-- Model of `SSTableReader::scan`.  `binary_search_by` over the index with
`unwrap_or_else` on the insertion point is modelled, through its library
contract on a sorted slice, as the first index whose key is at least the
range start; the subsequent loop reads forward until a key exceeds the
range end, keeping in-range entries. -/
def SSTableReader.scan (hash : String → Nat → Nat) (r : SSTableReader)
    (dev : DevEui) (start_time end_time : Option Time) : List Frame :=
  if ¬ r.might_contain hash dev then []
  else
    let start_key := MemtableKey.range_start dev start_time
    let end_key := MemtableKey.range_end dev end_time
    let start_idx := r.index.findIdx (fun e => start_key ≤ e.1)
    (((r.index.drop start_idx).takeWhile (fun e => e.1 ≤ end_key)).filter
      (fun e => start_key ≤ e.1 ∧ e.1 ≤ end_key)).map Prod.snd

/-- Model of `SSTableReader::max_timestamp`.
`DateTime::from_timestamp_micros` is partial in chrono only outside the
range of representable dates; every timestamp handled by the engine
originates from a `DateTime`, so the conversion is modelled as total. -/
def SSTableReader.max_timestamp (r : SSTableReader) : Option Time :=
  some r.metadata.max_key.timestamp

/-- Model of `SSTableReader::application_ids`: the cached set when
non-empty, otherwise the set rebuilt by scanning every frame. -/
def SSTableReader.application_ids (r : SSTableReader) : List String :=
  if ¬ r.metadata.application_ids.isEmpty then r.metadata.application_ids
  else
    r.iter_all.foldl
      (fun acc f =>
        match f.application_id with
        | some a => hashSetInsert acc a.raw
        | none => acc) []

/-- Model of `CompactionManager` (src/engine/compaction.rs); the data
directory is implicit. -/
structure CompactionManager where
  threshold : Nat
  next_sstable_id : Nat
deriving DecidableEq

/-- Model of `CompactionManager::should_compact`. -/
def CompactionManager.should_compact (m : CompactionManager)
    (sstable_count : Nat) : Bool :=
  sstable_count > m.threshold

/-- Model of `CompactionManager::allocate_sstable_id`. -/
def CompactionManager.allocate_sstable_id (m : CompactionManager) :
    Nat × CompactionManager :=
  (m.next_sstable_id, { m with next_sstable_id := m.next_sstable_id + 1 })

/-- Entries `CompactionManager::compact` collects before sorting: every
input frame in input processing order, re-keyed with sequence 0. -/
def compactAllEntries (inputs : List SSTableReader) :
    List (MemtableKey × Frame) :=
  inputs.flatMap
    (fun r => r.iter_all.map
      (fun f => (MemtableKey.new f.dev_eui f.timestamp 0, f)))

/-- Model of `CompactionManager::compact`: re-key every input frame with
sequence 0, stable-sort, merge through the ordered map (later inserts win on
equal keys), write a fresh SSTable.  Returns the entries written (the model
of the new file), the metadata, and the input paths to delete. -/
def CompactionManager.compact (hash : String → Nat → Nat)
    (bloom0 : BloomFilter) (now : Time) (mgr : CompactionManager)
    (inputs : List SSTableReader) :
    Except LoraDbError
      ((List (MemtableKey × Frame) × SSTableMetadata × List Nat) ×
        CompactionManager) :=
  if inputs.isEmpty then
    .error (.StorageError ("Cannot compact empty SSTable list"))
  else
    let sorted := stableSortBy keyPairLe (compactAllEntries inputs)
    let merged := dedupLastAdjacent sorted
    let alloc := mgr.allocate_sstable_id
    do
      let w ← merged.foldlM (fun w p => SSTableWriter.add hash w p.1 p.2)
        (SSTableWriter.new alloc.1 bloom0)
      let meta ← w.finish now
      pure ((w.entries, meta, inputs.map (fun r => r.path)), alloc.2)

/-- Model of `DeviceInfo` (src/model/device.rs). -/
structure DeviceInfo where
  dev_eui : DevEui
  device_name : Option String
  application_id : String
  first_seen : Time
  last_seen : Option Time
  frame_count : Nat
deriving DecidableEq

/-- Association-list lookup modelling map lookups keyed by strings. -/
def lookupAssoc (m : List (String × α)) (k : String) : Option α :=
  (m.find? (fun e => e.1 == k)).map Prod.snd

/-- Model of `DeviceRegistry` (src/model/device.rs): the `DashMap` is an
association list whose keys are the normalized device identifiers inserted
by `register_or_update`. -/
abbrev DeviceRegistry := List (String × DeviceInfo)

/-- Model of `DeviceRegistry::register_or_update`: key is the normalized
identifier; an existing entry gets its last-seen time, frame count and
(when given) name updated, otherwise a fresh entry is added. -/
def DeviceRegistry.register_or_update (reg : DeviceRegistry) (now : Time)
    (dev : DevEui) (name : Option String) (app_id : String) :
    DeviceRegistry :=
  let key := dev.normalized
  match lookupAssoc reg key with
  | some _ =>
    reg.map (fun e =>
      if e.1 = key then
        (e.1,
          { e.2 with
            last_seen := some now
            frame_count := e.2.frame_count + 1
            device_name :=
              match name with
              | some n => some n
              | none => e.2.device_name })
      else e)
  | none =>
    reg ++ [(key,
      { dev_eui := dev
        device_name := name
        application_id := app_id
        first_seen := now
        last_seen := some now
        frame_count := 1 })]

/-- Model of `DeviceRegistry::remove_device`: removal by the given string,
exactly as passed (no normalization in the source). -/
def DeviceRegistry.remove_device (reg : DeviceRegistry)
    (dev_eui_str : String) : Bool × DeviceRegistry :=
  ((reg.find? (fun e => e.1 == dev_eui_str)).isSome,
    reg.filter (fun e => ¬ e.1 = dev_eui_str))

/-- Model of `RetentionPolicy` (src/storage/retention_manager.rs). -/
structure RetentionPolicy where
  days : Option Nat
  created_at : Time
  updated_at : Time
deriving DecidableEq

/-- Model of `RetentionPolicies` (src/storage/retention_manager.rs); the
`HashMap` of per-application policies is an association list. -/
structure RetentionPolicies where
  global_days : Option Nat
  applications : List (String × RetentionPolicy)
  check_interval_hours : Nat
deriving DecidableEq

/-- Model of the per-application loop inside
`StorageEngine::enforce_retention` (src/storage/mod.rs lines 448-478): the
accumulator is `shortest_retention`; a per-application policy with null
`days` breaks out with `None`; an application with a policy (or falling
back to a non-null global) contributes `max` of its days; an application
with no policy under a null global contributes nothing.  `HashSet`
iteration order is an input; the final deletion decision does not depend
on it. -/
def retentionLoop (pol : RetentionPolicies) :
    List String → Option Nat → Option Nat
  | [], shortest => shortest
  | app :: rest, shortest =>
    match lookupAssoc pol.applications app with
    | some p =>
      match p.days with
      | some days =>
        retentionLoop pol rest
          (some (match shortest with | some c => max c days | none => days))
      | none => none
    | none =>
      match pol.global_days with
      | some days =>
        retentionLoop pol rest
          (some (match shortest with | some c => max c days | none => days))
      | none => retentionLoop pol rest shortest

/-- Microseconds in a day: `chrono::Duration::days` is exactly 86400
seconds per day. -/
def microsPerDay : Int := 86400000000

/-- Decision of `StorageEngine::enforce_retention` for one SSTable: skipped
without a max timestamp or when the loop yields no retention period,
otherwise deleted exactly when the max timestamp is strictly older than
`now` minus the computed days. -/
def sstableRetentionExpired (now : Time) (pol : RetentionPolicies)
    (r : SSTableReader) : Bool :=
  match r.max_timestamp with
  | none => false
  | some max_time =>
    match retentionLoop pol r.application_ids none with
    | none => false
    | some retention_days =>
      max_time < now - microsPerDay * (retention_days : Int)

/-- Model of the `StorageEngine` state (src/storage/mod.rs).  The WAL is
not part of the state: none of the modelled operations
(`enforce_retention`, `delete_device`, `query`) touches it. -/
structure StorageEngine where
  memtable : Memtable
  sstables : List SSTableReader
  compaction_manager : CompactionManager
  device_registry : DeviceRegistry
  retention_policies : RetentionPolicies

/-- Model of `StorageEngine::enforce_retention`: no-op when no policy is
configured; otherwise the expired SSTables are removed from the in-memory
list and their files deleted.  Returns the ids of the deleted SSTables. -/
def StorageEngine.enforce_retention (now : Time) (st : StorageEngine) :
    List Nat × StorageEngine :=
  if st.retention_policies.global_days.isNone &&
      st.retention_policies.applications.isEmpty then ([], st)
  else
    let to_delete :=
      (st.sstables.filter
        (fun s => sstableRetentionExpired now st.retention_policies s)).map
        (fun s => s.id)
    (to_delete,
      { st with
        sstables :=
          to_delete.foldl
            (fun acc i => acc.filter (fun s => ¬ s.id = i)) st.sstables })

/-- Model of `StorageEngine::delete_device`: delete from the memtable;
rewrite every SSTable without the device's frames (fresh id, re-keyed by
enumeration order, sorted, skipped when nothing remains); swap the list;
remove the registry entry under the identifier exactly as passed
(`as_str`, not normalized).  Returns the total number of removed frames. -/
def StorageEngine.delete_device (hash : String → Nat → Nat)
    (bloom0 : BloomFilter) (now : Time) (st : StorageEngine) (dev : DevEui) :
    Except LoraDbError (Nat × StorageEngine) := do
  let md := st.memtable.delete_device dev
  if st.sstables.isEmpty then
    pure (md.1,
      { st with
        memtable := md.2
        device_registry :=
          (DeviceRegistry.remove_device st.device_registry dev.as_str).2 })
  else do
    let res ← st.sstables.foldlM
      (fun (acc : Nat × List SSTableReader × CompactionManager) r => do
        let frames := r.iter_all
        let kept := frames.filter (fun f => ¬ f.dev_eui = dev)
        let removed := (frames.filter (fun f => f.dev_eui = dev)).length
        if kept.isEmpty then pure (acc.1 + removed, acc.2.1, acc.2.2)
        else do
          let alloc := acc.2.2.allocate_sstable_id
          let keyed := kept.enum.map
            (fun p => (MemtableKey.new p.2.dev_eui p.2.timestamp p.1, p.2))
          let keyedSorted := stableSortBy keyPairLe keyed
          let w ← keyedSorted.foldlM
            (fun w p => SSTableWriter.add hash w p.1 p.2)
            (SSTableWriter.new alloc.1 bloom0)
          let meta ← w.finish now
          pure (acc.1 + removed,
            acc.2.1 ++ [SSTableReader.openFromWrite meta w.entries],
            alloc.2))
      (md.1, [], st.compaction_manager)
    pure (res.1,
      { st with
        memtable := md.2
        sstables := res.2.1
        compaction_manager := res.2.2
        device_registry :=
          (DeviceRegistry.remove_device st.device_registry dev.as_str).2 })

/-- Boolean timestamp comparison used by the engine's stable result sort. -/
def frameTimestampLe (a b : Frame) : Bool :=
  a.timestamp ≤ b.timestamp

/-- Model of `StorageEngine::query`: memtable range scan, then every
SSTable scan, concatenated and stable-sorted by timestamp. -/
def StorageEngine.query (hash : String → Nat → Nat) (st : StorageEngine)
    (dev : DevEui) (start_time end_time : Option Time) : List Frame :=
  let mem_results := st.memtable.scan_device_range dev start_time end_time
  let sst_results := st.sstables.flatMap
    (fun r => r.scan hash dev start_time end_time)
  stableSortBy frameTimestampLe (mem_results ++ sst_results)

/-- The WAL record magic `0x4C4F5241` (src/engine/wal.rs). -/
def WAL_MAGIC : Nat := 0x4C4F5241

/-- The current WAL record version (src/engine/wal.rs). -/
def WAL_VERSION : Nat := 2

/-- Model of one framed WAL record as it sits in a segment file: magic
word, version, payload bytes, stored checksum.  Reading records
byte-by-byte is modelled at record granularity; a record whose magic field
differs from `WAL_MAGIC` models 4 bytes read at a record boundary that are
not the magic. -/
structure WalRecord where
  magic : Nat
  version : Nat
  payload : List Nat
  checksum : Nat
deriving DecidableEq

/-- Little-endian bytes of a `u16`. -/
def leBytes2 (v : Nat) : List Nat :=
  [v % 256, v / 256 % 256]

/-- Little-endian bytes of a `u32`. -/
def leBytes4 (v : Nat) : List Nat :=
  [v % 256, v / 256 % 256, v / 65536 % 256, v / 16777216 % 256]

/-- Bytes fed to the CRC-32 hasher for one record: version, then payload
length, then payload (src/engine/wal.rs, both append and replay). -/
def walChecksumInput (r : WalRecord) : List Nat :=
  leBytes2 r.version ++ leBytes4 r.payload.length ++ r.payload

/-- Model of `WriteAheadLog::replay_segment`.  CRC-32 (`crc`) and bincode
frame decoding (`decode`, `None` for payloads that fail to deserialize) are
external and passed in.  A record with bad magic stops the segment scan; a
checksum mismatch, an unrecognized version, or an undecodable payload is
skipped and the scan continues. -/
def WriteAheadLog.replay_segment (crc : List Nat → Nat)
    (decode : List Nat → Option Frame) : List WalRecord → List Frame
  | [] => []
  | r :: rest =>
    if r.magic ≠ WAL_MAGIC then []
    else if crc (walChecksumInput r) ≠ r.checksum then
      WriteAheadLog.replay_segment crc decode rest
    else if r.version ≠ WAL_VERSION then
      WriteAheadLog.replay_segment crc decode rest
    else
      match decode r.payload with
      | some f => f :: WriteAheadLog.replay_segment crc decode rest
      | none => WriteAheadLog.replay_segment crc decode rest

/-- Model of `WriteAheadLog::replay`: every existing segment from 0 up to
the latest is replayed in order (`segments` lists them); a segment that
fails wholesale is logged and skipped, which cannot occur in this
I/O-error-free model. -/
def WriteAheadLog.replay (crc : List Nat → Nat)
    (decode : List Nat → Option Frame) (segments : List (List WalRecord)) :
    List Frame :=
  segments.flatMap (WriteAheadLog.replay_segment crc decode)

/-- Model of the `SelectClause` AST (src/query/dsl.rs). -/
inductive SelectClause where
  | all
  | uplink
  | downlink
  | join
  | status
  | fields (fs : List String)
deriving DecidableEq

/-- Model of the `FromClause` AST (src/query/dsl.rs). -/
structure FromClause where
  dev_eui : String
deriving DecidableEq

/-- Model of the `FilterClause` AST (src/query/dsl.rs); durations are
carried in microseconds. -/
inductive FilterClause where
  | between (start_t end_t : Time)
  | since (start_t : Time)
  | last (duration : Int)
deriving DecidableEq

/-- Model of the `Query` AST (src/query/dsl.rs); `from` is a Lean keyword,
hence `from_clause`. -/
structure Query where
  select : SelectClause
  from_clause : FromClause
  filter : Option FilterClause
  limit : Option Nat
deriving DecidableEq

/-- Model of `Query::time_range`; `LAST d` resolves against `now`. -/
def Query.time_range (now : Time) (q : Query) : Option Time × Option Time :=
  match q.filter with
  | some (.between s e) => (some s, some e)
  | some (.since s) => (some s, none)
  | some (.last d) => (some (now - d), none)
  | none => (none, none)

/-- The result cap of the executor (src/query/executor.rs). -/
def MAX_QUERY_RESULTS : Nat := 10000

/-- Model of `thiserror`'s `Display` for `LoraDbError` (src/error.rs). -/
def LoraDbError.display : LoraDbError → String
  | .MqttError m => "MQTT connection error: " ++ m
  | .MqttParseError m => "MQTT parsing error: " ++ m
  | .StorageError m => "Storage error: " ++ m
  | .WalError m => "WAL error: " ++ m
  | .EncryptionError m => "Encryption error: " ++ m
  | .DecryptionError m => "Decryption error: " ++ m
  | .InvalidFrame m => "Invalid frame: " ++ m
  | .InvalidDevEui m => "Invalid DevEUI: " ++ m
  | .IncompatibleSStableVersion v => "Incompatible SSTable version: " ++ toString v
  | .QueryParseError m => "Query parse error: " ++ m
  | .QueryExecutionError m => "Query execution error: " ++ m
  | .AuthError m => "Authentication error: " ++ m
  | .ConfigError m => "Configuration error: " ++ m
  | .TlsError m => "TLS error: " ++ m
  | .SerializationError m => "Serialization error: " ++ m
  | .DeserializationError m => "Deserialization error: " ++ m
  | .IoError m => "IO error: " ++ m
  | .JsonError m => "JSON error: " ++ m
  | .BincodeError m => "Bincode error: " ++ m

/-- HTTP status assigned to each error by `IntoResponse for LoraDbError`
(src/api/handlers.rs): user-input errors surface as 400 with their message,
authentication as 401, everything else as a sanitized 500. -/
def errorStatus : LoraDbError → Nat
  | .QueryParseError _ => 400
  | .QueryExecutionError _ => 500
  | .AuthError _ => 401
  | .InvalidDevEui _ => 400
  | .StorageError _ => 500
  | _ => 500

/-- The `error` discriminant string assigned by `IntoResponse for
LoraDbError` (src/api/handlers.rs). -/
def errorKindName : LoraDbError → String
  | .QueryParseError _ => "QueryParseError"
  | .QueryExecutionError _ => "QueryExecutionError"
  | .AuthError _ => "AuthError"
  | .InvalidDevEui _ => "InvalidDevEui"
  | .StorageError _ => "InternalError"
  | _ => "InternalError"

/-- Field access on a JSON object (model of `serde_json::Value::get`). -/
def Json.get (j : Json) (key : String) : Option Json :=
  match j with
  | .obj fields => (fields.find? (fun e => e.1 == key)).map Prod.snd
  | _ => none

/-- Insert-or-replace on a JSON object map (model of
`serde_json::Map::insert`). -/
def jsonObjInsert (fields : List (String × Json)) (k : String) (v : Json) :
    List (String × Json) :=
  if (fields.find? (fun e => e.1 == k)).isSome then
    fields.map (fun e => if e.1 == k then (k, v) else e)
  else fields ++ [(k, v)]

/-- Model of `QueryExecutor::get_nested_field`: walk the dot-separated
path. -/
def QueryExecutor.get_nested_field (j : Json) (path : String) :
    Option Json :=
  (path.splitOn (".")).foldlM (fun cur seg => cur.get seg) j

/-- Model of `QueryExecutor::unwrap_frame_variant`: a one-key object whose
value is an object is flattened, adding a `frame_type` discriminant. -/
def QueryExecutor.unwrap_frame_variant (j : Json) : Json :=
  match j with
  | .obj [(variant_name, .obj inner)] =>
    .obj (jsonObjInsert inner ("frame_type") (.str variant_name))
  | _ => j

/-- Model of `QueryExecutor::unwrap_decoded_payload`: when
`decoded_payload.object` is a string that parses as JSON (via the external
parser `parseJson`), replace it by the parsed value. -/
def QueryExecutor.unwrap_decoded_payload (parseJson : String → Option Json)
    (j : Json) : Json :=
  match j with
  | .obj fields =>
    .obj (fields.map (fun e =>
      if e.1 == "decoded_payload" then
        match e.2 with
        | .obj dp =>
          (e.1, .obj (dp.map (fun d =>
            if d.1 == "object" then
              match d.2 with
              | .str str_val =>
                match parseJson str_val with
                | some parsed => (d.1, parsed)
                | none => d
              | _ => d
            else d)))
        | _ => e
      else e))
  | _ => j

/-- Model of `QueryExecutor::project_fields`: build a result object keyed
by the requested paths; dotted paths use the full path as key; missing
fields are omitted; non-`Fields` selections pass through. -/
def QueryExecutor.project_fields (j : Json) (select : SelectClause) :
    Json :=
  match select with
  | .fields fs =>
    .obj (fs.foldl (fun result field =>
      if field.contains ('.') then
        match QueryExecutor.get_nested_field j field with
        | some v => jsonObjInsert result field v
        | none => result
      else
        match j.get field with
        | some v => jsonObjInsert result field v
        | none => result) [])
  | _ => j

/-- Model of `QueryExecutor::filter_frames`. -/
def QueryExecutor.filter_frames (frames : List Frame)
    (select : SelectClause) : List Frame :=
  match select with
  | .all => frames
  | .uplink => frames.filter (fun f =>
      match f with | .Uplink _ => true | _ => false)
  | .downlink => frames.filter (fun f =>
      match f with | .Downlink _ => true | _ => false)
  | .join => frames.filter (fun f =>
      match f with
      | .JoinRequest _ => true
      | .JoinAccept _ => true
      | _ => false)
  | .status => frames.filter (fun f =>
      match f with | .Status _ => true | _ => false)
  | .fields _ => frames

/-- Model of `QueryResult` (src/query/dsl.rs). -/
structure QueryResult where
  dev_eui : String
  total_frames : Nat
  frames : List Json

/-- Model of `QueryExecutor::execute` (src/query/executor.rs).  The storage
engine's query is the function `store`; `serialize` models
`serde_json::to_value` on a frame and `parseJson` models
`serde_json::from_str`.  A missing filter fails before anything else runs;
then the device id is validated, the store queried, the cap
`min(user_limit, MAX_QUERY_RESULTS)` applied, the SELECT filter applied,
and each frame serialized through the unwrapping and projection
pipeline. -/
def QueryExecutor.execute
    (store : DevEui → Option Time → Option Time → List Frame)
    (serialize : Frame → Json) (parseJson : String → Option Json)
    (now : Time) (q : Query) : Except LoraDbError QueryResult :=
  if q.filter.isNone then
    .error (.QueryExecutionError
      ("Time filter is required for security. Use WHERE LAST, SINCE, or BETWEEN clause."))
  else
    match DevEui.new q.from_clause.dev_eui with
    | .error e => .error (.QueryExecutionError (LoraDbError.display e))
    | .ok dev =>
      let tr := q.time_range now
      let frames0 := store dev tr.1 tr.2
      let effective_limit := min (q.limit.getD MAX_QUERY_RESULTS) MAX_QUERY_RESULTS
      let frames1 :=
        if frames0.length > effective_limit then frames0.take effective_limit
        else frames0
      let frames2 := QueryExecutor.filter_frames frames1 q.select
      let json_frames := frames2.map (fun f =>
        QueryExecutor.project_fields
          (QueryExecutor.unwrap_decoded_payload parseJson
            (QueryExecutor.unwrap_frame_variant (serialize f))) q.select)
      .ok { dev_eui := q.from_clause.dev_eui
            total_frames := json_frames.length
            frames := json_frames }

/-! Generic list lemmas used by the scan, sort and merge proofs. -/

theorem drop_findIdx_eq_dropWhile_not (p : α → Bool) :
    ∀ l : List α, l.drop (l.findIdx p) = l.dropWhile (fun a => !(p a))
  | [] => rfl
  | a :: l => by
    by_cases h : p a
    · simp [List.findIdx_cons, h, List.dropWhile_cons]
    · simpa [List.findIdx_cons, h, List.dropWhile_cons]
        using drop_findIdx_eq_dropWhile_not p l

theorem dropWhile_not_eq_filter {R : α → α → Prop} {p : α → Bool}
    (hcl : ∀ a b, R a b → p a = true → p b = true) :
    ∀ {l : List α}, l.Pairwise R →
      l.dropWhile (fun a => !(p a)) = l.filter p
  | [], _ => rfl
  | a :: l, h => by
    rcases List.pairwise_cons.mp h with ⟨ha, hl⟩
    by_cases hp : p a
    · simp only [List.dropWhile_cons, hp, Bool.not_true, List.filter_cons_of_pos]
      rw [List.filter_eq_self.mpr (fun b hb => hcl a b (ha b hb) hp)]
      simp [hp]
    · have hp2 : p a = false := by simpa using hp
      simp only [List.dropWhile_cons, hp2, Bool.not_false, List.filter_cons_of_neg]
      rw [dropWhile_not_eq_filter hcl hl]
      simp [hp2]

theorem takeWhile_eq_filter {R : α → α → Prop} {q : α → Bool}
    (hcl : ∀ a b, R a b → q b = true → q a = true) :
    ∀ {l : List α}, l.Pairwise R → l.takeWhile q = l.filter q
  | [], _ => rfl
  | a :: l, h => by
    rcases List.pairwise_cons.mp h with ⟨ha, hl⟩
    by_cases hq : q a
    · simp only [List.takeWhile_cons, hq, if_true]
      rw [takeWhile_eq_filter hcl hl]
      simp [hq]
    · have hq2 : q a = false := by simpa using hq
      have hnone : ∀ b ∈ l, q b = false := by
        intro b hb
        by_contra hqb
        exact hq (hcl a b (ha b hb) (by simpa using hqb))
      have h1 : List.filter q l = [] :=
        List.filter_eq_nil_iff.mpr (fun b hb => by simp [hnone b hb])
      simp [List.takeWhile_cons, hq2, h1]

theorem mem_insertLeBy {le : α → α → Bool} {x a : α} :
    ∀ {l : List α}, a ∈ insertLeBy le x l ↔ a = x ∨ a ∈ l
  | [] => by simp [insertLeBy]
  | y :: ys => by
    by_cases h : le x y
    · simp [insertLeBy, h]
    · have h2 : le x y = false := by simpa using h
      simp only [insertLeBy, h2, Bool.false_eq_true, if_false, List.mem_cons,
        mem_insertLeBy]
      tauto

theorem pairwise_insertLeBy {le : α → α → Bool}
    (htrans : ∀ a b c, le a b = true → le b c = true → le a c = true)
    (htot : ∀ a b, le a b = false → le b a = true) (x : α) :
    ∀ {l : List α}, l.Pairwise (fun a b => le a b = true) →
      (insertLeBy le x l).Pairwise (fun a b => le a b = true)
  | [], _ => by simp [insertLeBy]
  | y :: ys, h => by
    rcases List.pairwise_cons.mp h with ⟨hy, hys⟩
    by_cases hxy : le x y
    · simp only [insertLeBy, hxy, if_true]
      refine List.pairwise_cons.mpr ⟨?_, h⟩
      intro b hb
      rcases List.mem_cons.mp hb with rfl | hb
      · exact hxy
      · exact htrans x y b hxy (hy b hb)
    · have hxy2 : le x y = false := by simpa using hxy
      simp only [insertLeBy, hxy2, if_false]
      refine List.pairwise_cons.mpr ⟨?_, pairwise_insertLeBy htrans htot x hys⟩
      intro b hb
      rcases mem_insertLeBy.mp hb with hbx | hb
      · rw [hbx]
        exact htot x y hxy2
      · exact hy b hb

theorem mem_stableSortBy {le : α → α → Bool} {a : α} :
    ∀ {l : List α}, a ∈ stableSortBy le l ↔ a ∈ l
  | [] => Iff.rfl
  | x :: xs => by
    simp only [stableSortBy, mem_insertLeBy, List.mem_cons, mem_stableSortBy]

theorem pairwise_stableSortBy {le : α → α → Bool}
    (htrans : ∀ a b c, le a b = true → le b c = true → le a c = true)
    (htot : ∀ a b, le a b = false → le b a = true) :
    ∀ (l : List α),
      (stableSortBy le l).Pairwise (fun a b => le a b = true) := by
  intro l
  induction l with
  | nil => exact List.Pairwise.nil
  | cons x xs ih => exact pairwise_insertLeBy htrans htot x ih

theorem keyPairLe_trans : ∀ a b c : MemtableKey × Frame,
    keyPairLe a b = true → keyPairLe b c = true → keyPairLe a c = true := by
  intro a b c hab hbc
  simp only [keyPairLe, decide_eq_true_eq] at *
  exact le_trans hab hbc

theorem keyPairLe_total : ∀ a b : MemtableKey × Frame,
    keyPairLe a b = false → keyPairLe b a = true := by
  intro a b h
  simp only [keyPairLe, decide_eq_true_eq, decide_eq_false_iff_not] at *
  exact le_of_lt (lt_of_not_le h)

/-- Filtering one key out of a stable insertion: the inserted pair lands in
front of every equal-key pair already present (stability of the later
insertions performed by `stableSortBy`). -/
theorem filter_key_insertLeBy (k : MemtableKey) (x : MemtableKey × Frame) :
    ∀ l : List (MemtableKey × Frame),
      (insertLeBy keyPairLe x l).filter (fun e => e.1 = k) =
        if x.1 = k then x :: l.filter (fun e => e.1 = k)
        else l.filter (fun e => e.1 = k)
  | [] => by
    by_cases hx : x.1 = k <;> simp [insertLeBy, hx]
  | y :: ys => by
    by_cases hle : keyPairLe x y
    · simp only [insertLeBy, hle, if_true]
      by_cases hx : x.1 = k <;> simp [hx]
    · have hle2 : keyPairLe x y = false := by simpa using hle
      have hylt : y.1 < x.1 := by
        have h2 : ¬ (x.1 ≤ y.1) := by simpa [keyPairLe] using hle2
        exact lt_of_not_le h2
      simp only [insertLeBy, hle2, Bool.false_eq_true, if_false]
      by_cases hx : x.1 = k
      · have hy : ¬ (y.1 = k) :=
          fun he => absurd (he.trans hx.symm) (ne_of_lt hylt)
        simp [List.filter_cons, hy, hx, filter_key_insertLeBy k x ys]
      · by_cases hy : y.1 = k <;>
          simp [List.filter_cons, hy, filter_key_insertLeBy k x ys, hx]

/-- Stability of the modelled sort: the subsequence of pairs carrying one
given key is unchanged. -/
theorem filter_key_stableSortBy (k : MemtableKey) :
    ∀ l : List (MemtableKey × Frame),
      (stableSortBy keyPairLe l).filter (fun e => e.1 = k) =
        l.filter (fun e => e.1 = k)
  | [] => rfl
  | x :: xs => by
    rw [stableSortBy, filter_key_insertLeBy k x (stableSortBy keyPairLe xs),
      filter_key_stableSortBy k xs]
    by_cases hx : x.1 = k <;> simp [List.filter_cons, hx]

theorem getLast?_cons_ne_nil {a : α} {t : List α} (h : t ≠ []) :
    (a :: t).getLast? = t.getLast? := by
  cases t with
  | nil => exact absurd rfl h
  | cons b t2 => simp [List.getLast?_cons_cons]

theorem mem_dedupLastAdjacent {e : MemtableKey × Frame} :
    ∀ {l : List (MemtableKey × Frame)}, e ∈ dedupLastAdjacent l → e ∈ l
  | [], h => by simp [dedupLastAdjacent] at h
  | [x], h => by simpa [dedupLastAdjacent] using h
  | x :: y :: rest, h => by
    by_cases hxy : x.1 = y.1
    · simp only [dedupLastAdjacent, hxy, if_true] at h
      exact List.mem_cons_of_mem x (mem_dedupLastAdjacent h)
    · simp only [dedupLastAdjacent, hxy, if_false, List.mem_cons] at h
      rcases h with h | h
      · exact h ▸ List.mem_cons_self x (y :: rest)
      · exact List.mem_cons_of_mem x (mem_dedupLastAdjacent h)

theorem key_mem_dedupLastAdjacent {k : MemtableKey} :
    ∀ {l : List (MemtableKey × Frame)},
      k ∈ (dedupLastAdjacent l).map Prod.fst ↔ k ∈ l.map Prod.fst
  | [] => Iff.rfl
  | [x] => by simp [dedupLastAdjacent]
  | x :: y :: rest => by
    by_cases hxy : x.1 = y.1
    · simp only [dedupLastAdjacent, hxy, if_true]
      rw [key_mem_dedupLastAdjacent (l := y :: rest)]
      simp only [List.map_cons, List.mem_cons]
      constructor
      · tauto
      · rintro (h | h)
        · exact Or.inl (h.trans hxy)
        · exact h
    · simp only [dedupLastAdjacent, hxy, if_false, List.map_cons, List.mem_cons]
      have ih := key_mem_dedupLastAdjacent (k := k) (l := y :: rest)
      simp only [List.map_cons, List.mem_cons] at ih
      rw [ih]

theorem pairwise_lt_dedupLastAdjacent :
    ∀ {l : List (MemtableKey × Frame)},
      l.Pairwise (fun a b => keyPairLe a b = true) →
      (dedupLastAdjacent l).Pairwise (fun a b => a.1 < b.1)
  | [], _ => List.Pairwise.nil
  | [x], _ => by simp [dedupLastAdjacent]
  | x :: y :: rest, h => by
    rcases List.pairwise_cons.mp h with ⟨hx, hrest⟩
    by_cases hxy : x.1 = y.1
    · simp only [dedupLastAdjacent, hxy, if_true]
      exact pairwise_lt_dedupLastAdjacent hrest
    · simp only [dedupLastAdjacent, hxy, if_false]
      refine List.pairwise_cons.mpr
        ⟨?_, pairwise_lt_dedupLastAdjacent hrest⟩
      intro b hb
      have hby : b ∈ y :: rest := mem_dedupLastAdjacent hb
      have hxyle : x.1 ≤ y.1 := by
        have := hx y (List.mem_cons_self y rest)
        simpa [keyPairLe] using this
      have hxylt : x.1 < y.1 := lt_of_le_of_ne hxyle hxy
      rcases List.mem_cons.mp hby with hb2 | hb2
      · exact hb2 ▸ hxylt
      · have hyb : y.1 ≤ b.1 := by
          have := (List.pairwise_cons.mp hrest).1 b hb2
          simpa [keyPairLe] using this
        exact lt_of_lt_of_le hxylt hyb

theorem getLast_filter_dedupLastAdjacent {k : MemtableKey} {f : Frame} :
    ∀ {l : List (MemtableKey × Frame)},
      l.Pairwise (fun a b => keyPairLe a b = true) →
      (k, f) ∈ dedupLastAdjacent l →
      (l.filter (fun e => e.1 = k)).getLast? = some (k, f)
  | [], _, h => by simp [dedupLastAdjacent] at h
  | [x], _, h => by
    simp only [dedupLastAdjacent, List.mem_singleton] at h
    rw [← h]
    simp [List.filter_cons]
  | x :: y :: rest, hp, h => by
    rcases List.pairwise_cons.mp hp with ⟨hx, hrest⟩
    by_cases hxy : x.1 = y.1
    · simp only [dedupLastAdjacent, hxy, if_true] at h
      have ih := getLast_filter_dedupLastAdjacent hrest h
      by_cases hxk : x.1 = k
      · have hyk : y.1 = k := hxy.symm.trans hxk
        have hne : (y :: rest).filter (fun e => e.1 = k) ≠ [] := by
          intro hnil
          have : y ∈ (y :: rest).filter (fun e => e.1 = k) := by
            simp [List.mem_filter, hyk]
          rw [hnil] at this
          exact absurd this (List.not_mem_nil y)
        rw [List.filter_cons_of_pos (by simp [hxk])]
        rw [getLast?_cons_ne_nil hne]
        exact ih
      · rw [List.filter_cons_of_neg (by simp [hxk])]
        exact ih
    · simp only [dedupLastAdjacent, hxy, if_false, List.mem_cons] at h
      have hxyle : x.1 ≤ y.1 := by
        have := hx y (List.mem_cons_self y rest)
        simpa [keyPairLe] using this
      have hxylt : x.1 < y.1 := lt_of_le_of_ne hxyle hxy
      rcases h with h | h
      · have hxk : x.1 = k := by rw [← h]
        have hnone : ∀ e ∈ y :: rest, ¬ (e.1 = k) := by
          intro e he
          rcases List.mem_cons.mp he with he2 | he2
          · rw [he2]
            exact fun hek => absurd (hxk ▸ hek ▸ hxylt) (lt_irrefl _)
          · have hyele : y.1 ≤ e.1 := by
              have := (List.pairwise_cons.mp hrest).1 e he2
              simpa [keyPairLe] using this
            exact fun hek =>
              absurd (hxk ▸ hek ▸ lt_of_lt_of_le hxylt hyele) (lt_irrefl _)
        rw [List.filter_cons_of_pos (by simp [hxk])]
        rw [List.filter_eq_nil_iff.mpr (fun e he => by simp [hnone e he])]
        rw [← h]
        simp
      · have ih := getLast_filter_dedupLastAdjacent hrest h
        have hkmem : k ∈ (y :: rest).map Prod.fst := by
          have : (k, f) ∈ y :: rest := mem_dedupLastAdjacent h
          exact List.mem_map_of_mem Prod.fst this
        have hxk : ¬ (x.1 = k) := by
          intro hxk
          rcases List.mem_map.mp hkmem with ⟨e, he, hek⟩
          rcases List.mem_cons.mp he with he2 | he2
          · rw [he2] at hek
            exact absurd (hxk ▸ hek ▸ hxylt) (lt_irrefl _)
          · have hyele : y.1 ≤ e.1 := by
              have := (List.pairwise_cons.mp hrest).1 e he2
              simpa [keyPairLe] using this
            exact absurd (hxk ▸ hek ▸ lt_of_lt_of_le hxylt hyele)
              (lt_irrefl _)
        rw [List.filter_cons_of_neg (by simp [hxk])]
        exact ih

/-! Bloom filter lemmas. -/

theorem foldl_set_length (h : Nat → Nat) :
    ∀ (l : List Nat) (bits : List Bool),
      (l.foldl (fun b i => b.set (h i) true) bits).length = bits.length
  | [], _ => rfl
  | i :: l, bits => by
    rw [List.foldl_cons, foldl_set_length h l, List.length_set]

theorem getD_set_true_mono {bits : List Bool} {m j : Nat}
    (hj : bits.getD j false = true) :
    (bits.set m true).getD j false = true := by
  rcases eq_or_ne m j with rfl | hne
  · by_cases hlt : m < bits.length
    · simp [List.getD, List.getElem?_set_self, hlt]
    · rw [List.set_eq_of_length_le (le_of_not_lt hlt)]
      exact hj
  · simpa [List.getD, List.getElem?_set_ne hne] using hj

theorem foldl_set_getD_mono (h : Nat → Nat) :
    ∀ (l : List Nat) (bits : List Bool) (j : Nat),
      bits.getD j false = true →
      (l.foldl (fun b i => b.set (h i) true) bits).getD j false = true
  | [], _, _, hj => hj
  | i :: l, bits, j, hj => by
    rw [List.foldl_cons]
    exact foldl_set_getD_mono h l _ j (getD_set_true_mono hj)

theorem foldl_set_getD_of_mem (h : Nat → Nat) :
    ∀ (l : List Nat) (bits : List Bool) (i : Nat), i ∈ l →
      h i < bits.length →
      (l.foldl (fun b n => b.set (h n) true) bits).getD (h i) false = true
  | [], _, _, hmem, _ => absurd hmem (List.not_mem_nil _)
  | n :: l, bits, i, hmem, hlt => by
    rw [List.foldl_cons]
    by_cases hil : i ∈ l
    · exact foldl_set_getD_of_mem h l _ i hil (by rw [List.length_set]; exact hlt)
    · have hin : i = n := by
        rcases List.mem_cons.mp hmem with h1 | h1
        · exact h1
        · exact absurd h1 hil
      subst hin
      apply foldl_set_getD_mono
      simp [List.getD, List.getElem?_set_self, hlt]

theorem BloomFilter.insert_num_bits (hash : String → Nat → Nat)
    (bf : BloomFilter) (x : String) :
    (bf.insert hash x).num_bits = bf.num_bits := rfl

theorem BloomFilter.insert_num_hash (hash : String → Nat → Nat)
    (bf : BloomFilter) (x : String) :
    (bf.insert hash x).num_hash_functions = bf.num_hash_functions := rfl

theorem BloomFilter.insert_wf (hash : String → Nat → Nat)
    (bf : BloomFilter) (x : String) (hwf : bf.wf) :
    (bf.insert hash x).wf := by
  unfold BloomFilter.wf at *
  unfold BloomFilter.insert
  simpa [foldl_set_length] using hwf

theorem BloomFilter.insert_contains_self (hash : String → Nat → Nat)
    (bf : BloomFilter) (x : String) (hwf : bf.wf)
    (hbits : 0 < bf.num_bits) :
    (bf.insert hash x).contains hash x = true := by
  unfold BloomFilter.contains BloomFilter.insert
  rw [List.all_eq_true]
  intro i hi
  simp only []
  apply foldl_set_getD_of_mem
  · exact hi
  · rw [hwf]
    exact Nat.mod_lt _ hbits

theorem BloomFilter.contains_mono_insert (hash : String → Nat → Nat)
    (bf : BloomFilter) (x y : String)
    (hy : bf.contains hash y = true) :
    (bf.insert hash x).contains hash y = true := by
  unfold BloomFilter.contains at *
  rw [List.all_eq_true] at *
  intro i hi
  have := hy i hi
  unfold BloomFilter.insert
  simp only [] at this ⊢
  exact foldl_set_getD_mono _ _ _ _ this

theorem BloomFilter.insertList_wf (hash : String → Nat → Nat) :
    ∀ (xs : List String) (bf : BloomFilter), bf.wf →
      (BloomFilter.insertList hash bf xs).wf
  | [], _, hwf => hwf
  | z :: rest, bf, hwf =>
    BloomFilter.insertList_wf hash rest _ (bf.insert_wf hash z hwf)

theorem BloomFilter.insertList_num_bits (hash : String → Nat → Nat) :
    ∀ (xs : List String) (bf : BloomFilter),
      (BloomFilter.insertList hash bf xs).num_bits = bf.num_bits
  | [], _ => rfl
  | z :: rest, bf => BloomFilter.insertList_num_bits hash rest (bf.insert hash z)

theorem BloomFilter.contains_mono_insertList (hash : String → Nat → Nat) :
    ∀ (xs : List String) (bf : BloomFilter) (y : String),
      bf.contains hash y = true →
      (BloomFilter.insertList hash bf xs).contains hash y = true
  | [], _, _, hy => hy
  | z :: rest, bf, y, hy =>
    BloomFilter.contains_mono_insertList hash rest _ y
      (bf.contains_mono_insert hash z y hy)

theorem BloomFilter.insertList_contains_of_mem (hash : String → Nat → Nat) :
    ∀ (xs : List String) (bf : BloomFilter) (x : String), bf.wf →
      0 < bf.num_bits → x ∈ xs →
      (BloomFilter.insertList hash bf xs).contains hash x = true
  | [], _, x, _, _, hmem => absurd hmem (List.not_mem_nil x)
  | z :: rest, bf, x, hwf, hbits, hmem => by
    by_cases hxr : x ∈ rest
    · exact BloomFilter.insertList_contains_of_mem hash rest _ x
        (bf.insert_wf hash z hwf) hbits hxr
    · have hxz : x = z := by
        rcases List.mem_cons.mp hmem with h1 | h1
        · exact h1
        · exact absurd h1 hxr
      subst hxz
      exact BloomFilter.contains_mono_insertList hash rest _ x
        (bf.insert_contains_self hash x hwf hbits)

/-- C7: for a bloom filter with at least one bit and at least one hash
function (with the constructor's invariant that the bit vector has
`num_bits` entries), after any sequence of `insert` calls `contains`
returns true for every element that was inserted, and a further `insert`
never changes `contains` from true to false for any element. -/
theorem C7_bloom_soundness_monotonicity (hash : String → Nat → Nat)
    (bf : BloomFilter) (hwf : bf.wf) (hbits : 0 < bf.num_bits)
    (_hk : 0 < bf.num_hash_functions) :
    (∀ (xs : List String) (x : String), x ∈ xs →
      (BloomFilter.insertList hash bf xs).contains hash x = true) ∧
    (∀ (x y : String), bf.contains hash y = true →
      (bf.insert hash x).contains hash y = true) := by
  constructor
  · intro xs x hx
    exact BloomFilter.insertList_contains_of_mem hash xs bf x hwf hbits hx
  · intro x y hy
    exact bf.contains_mono_insert hash x y hy

/-- Witness for C7: a 3-bit filter with 2 hash functions, a concrete hash
function and the insertion sequence `["ab", "c"]`. -/
theorem C7_bloom_witness :
    (BloomFilter.insertList (fun s i => s.length + i)
      (BloomFilter.mk [false, false, false] 2 3) ["ab", "c"]).contains
      (fun s i => s.length + i) "ab" = true :=
  (C7_bloom_soundness_monotonicity (fun s i => s.length + i)
      (BloomFilter.mk [false, false, false] 2 3) rfl (by decide)
      (by decide)).1 ["ab", "c"] "ab" (by decide)

/-! SSTable writer lemmas. -/

/-- Writers reachable from `SSTableWriter::new` through successful `add`
calls: every writer the engine ever hands to `finish`. -/
inductive SSTableWriter.Reachable (hash : String → Nat → Nat) :
    SSTableWriter → Prop
  | new (id : Nat) (bloom0 : BloomFilter) :
      SSTableWriter.Reachable hash (SSTableWriter.new id bloom0)
  | add (w w2 : SSTableWriter) (key : MemtableKey) (frame : Frame) :
      SSTableWriter.Reachable hash w →
      SSTableWriter.add hash w key frame = .ok w2 →
      SSTableWriter.Reachable hash w2

theorem SSTableWriter.add_ok_entries {hash : String → Nat → Nat}
    {w w2 : SSTableWriter} {key : MemtableKey} {frame : Frame}
    (h : SSTableWriter.add hash w key frame = .ok w2) :
    w2.entries = w.entries ++ [(key, frame)] := by
  unfold SSTableWriter.add at h
  cases hl : w.entries.getLast? with
  | none =>
    rw [hl] at h
    dsimp only at h
    injection h with h2
    rw [← h2]
  | some last =>
    rw [hl] at h
    dsimp only at h
    by_cases hle : key ≤ last.1
    · rw [if_pos hle] at h
      exact absurd h (by simp)
    · rw [if_neg hle] at h
      injection h with h2
      rw [← h2]

theorem SSTableWriter.add_ok_iff {hash : String → Nat → Nat}
    {w : SSTableWriter} {key : MemtableKey} {frame : Frame} :
    (∃ w2, SSTableWriter.add hash w key frame = .ok w2) ↔
      (w.entries = [] ∨
        ∃ last, w.entries.getLast? = some last ∧ last.1 < key) := by
  unfold SSTableWriter.add
  cases hl : w.entries.getLast? with
  | none =>
    simp only [List.getLast?_eq_none_iff] at hl
    simp [hl]
  | some last =>
    have hne : w.entries ≠ [] := by
      intro he
      rw [he] at hl
      exact absurd hl (by simp)
    dsimp only
    by_cases hle : key ≤ last.1
    · rw [if_pos hle]
      constructor
      · rintro ⟨w2, hw2⟩
        exact absurd hw2 (by simp)
      · rintro (he | ⟨last2, hl2, hlt⟩)
        · exact absurd he hne
        · injection hl2 with hl3
          rw [hl3] at hle
          exact absurd hlt (not_lt_of_le hle)
    · rw [if_neg hle]
      refine ⟨fun _ => Or.inr ⟨last, rfl, lt_of_not_le hle⟩, fun _ => ⟨_, rfl⟩⟩

theorem SSTableWriter.add_fails {hash : String → Nat → Nat}
    {w : SSTableWriter} {key : MemtableKey} {frame : Frame}
    (h : ¬ (w.entries = [] ∨
      ∃ last, w.entries.getLast? = some last ∧ last.1 < key)) :
    SSTableWriter.add hash w key frame =
      .error (.StorageError ("SSTable entries must be added in sorted order")) := by
  unfold SSTableWriter.add
  push_neg at h
  obtain ⟨hne, hlast⟩ := h
  cases hl : w.entries.getLast? with
  | none =>
    simp only [List.getLast?_eq_none_iff] at hl
    exact absurd hl hne
  | some last =>
    have := hlast last hl
    dsimp only
    rw [if_pos this]

theorem fst_le_getLast_of_pairwise :
    ∀ {l : List (MemtableKey × Frame)},
      (l.map Prod.fst).Pairwise (· < ·) → ∀ {p}, p ∈ l →
      ∃ q, l.getLast? = some q ∧ p.1 ≤ q.1
  | [], _, p, hmem => absurd hmem (List.not_mem_nil p)
  | [x], _, p, hmem => by
    have hpx : p = x := List.mem_singleton.mp hmem
    exact ⟨x, rfl, le_of_eq (congrArg Prod.fst hpx)⟩
  | x :: y :: rest, hp, p, hmem => by
    have hp2 : ((y :: rest).map Prod.fst).Pairwise (· < ·) :=
      (List.pairwise_cons.mp (by simpa using hp)).2
    have hx : ∀ b ∈ y :: rest, x.1 < b.1 := by
      intro b hb
      have := (List.pairwise_cons.mp (by simpa using hp)).1 b.1
        (List.mem_map_of_mem Prod.fst hb)
      exact this
    rcases List.mem_cons.mp hmem with rfl | hmem2
    · obtain ⟨q, hq, _⟩ := fst_le_getLast_of_pairwise hp2
        (List.mem_cons_self y rest)
      refine ⟨q, ?_, ?_⟩
      · rw [getLast?_cons_ne_nil (by simp), hq]
      · exact le_of_lt (hx q (List.mem_of_mem_getLast? hq))
    · obtain ⟨q, hq, hle⟩ := fst_le_getLast_of_pairwise hp2 hmem2
      exact ⟨q, by rw [getLast?_cons_ne_nil (by simp), hq], hle⟩

theorem pairwise_lt_append_key {l : List (MemtableKey × Frame)}
    {key : MemtableKey} {frame : Frame}
    (hp : (l.map Prod.fst).Pairwise (· < ·))
    (hlast : ∀ last, l.getLast? = some last → last.1 < key) :
    ((l ++ [(key, frame)]).map Prod.fst).Pairwise (· < ·) := by
  rw [List.map_append]
  apply List.pairwise_append.mpr
  refine ⟨hp, by simp, ?_⟩
  intro a ha b hb
  rcases List.mem_map.mp ha with ⟨p, hpmem, rfl⟩
  rcases List.mem_singleton.mp (by simpa using hb) with rfl
  obtain ⟨q, hq, hle⟩ := fst_le_getLast_of_pairwise hp hpmem
  exact lt_of_le_of_lt hle (hlast q hq)

theorem SSTableWriter.reachable_pairwise {hash : String → Nat → Nat} :
    ∀ {w : SSTableWriter}, SSTableWriter.Reachable hash w →
      (w.entries.map Prod.fst).Pairwise (· < ·) := by
  intro w h
  induction h with
  | new id bloom0 => simp [SSTableWriter.new]
  | add w w2 key frame _hr hok ih =>
    rw [SSTableWriter.add_ok_entries hok]
    apply pairwise_lt_append_key ih
    intro last hl
    unfold SSTableWriter.add at hok
    rw [hl] at hok
    dsimp only at hok
    by_cases hle : key ≤ last.1
    · rw [if_pos hle] at hok
      exact absurd hok (by simp)
    · exact lt_of_not_le hle

theorem SSTableWriter.finish_empty {w : SSTableWriter} (now : Time)
    (h : w.entries = []) :
    w.finish now = .error (.StorageError ("Cannot write empty SSTable")) := by
  unfold SSTableWriter.finish
  rw [h]

theorem SSTableWriter.finish_ok {w : SSTableWriter} {now : Time}
    {m : SSTableMetadata} (h : w.finish now = .ok m) :
    m.num_entries = w.entries.length ∧ w.entries ≠ [] := by
  unfold SSTableWriter.finish at h
  cases he : w.entries with
  | nil =>
    rw [he] at h
    exact absurd h (by simp)
  | cons e rest =>
    rw [he] at h
    dsimp only at h
    injection h with h2
    rw [← h2]
    simp

/-- C8: `SSTableWriter::add` succeeds exactly when the writer is empty or
the new key is strictly greater than the last added key, and fails with the
sorted-order storage error otherwise; consequently every writer reachable
through `new` and successful `add` calls carries a strictly ascending entry
key sequence, which is exactly the data and index-entry key sequence
`finish` writes. -/
theorem C8_add_order_invariant (hash : String → Nat → Nat) :
    (∀ (w : SSTableWriter) (key : MemtableKey) (frame : Frame),
      ((∃ w2, SSTableWriter.add hash w key frame = .ok w2) ↔
        (w.entries = [] ∨
          ∃ last, w.entries.getLast? = some last ∧ last.1 < key)) ∧
      (¬ (w.entries = [] ∨
          ∃ last, w.entries.getLast? = some last ∧ last.1 < key) →
        SSTableWriter.add hash w key frame =
          .error (.StorageError
            ("SSTable entries must be added in sorted order")))) ∧
    (∀ w : SSTableWriter, SSTableWriter.Reachable hash w →
      (w.entries.map Prod.fst).Pairwise (· < ·)) := by
  refine ⟨fun w key frame => ⟨SSTableWriter.add_ok_iff, fun h => SSTableWriter.add_fails h⟩, ?_⟩
  intro w hr
  exact SSTableWriter.reachable_pairwise hr

/-- C10: `finish` with zero added entries fails with the
"Cannot write empty SSTable" storage error and writes no file, and every
successful `finish` describes a non-empty SSTable covering exactly the
writer's entries, so no zero-entry SSTable is ever created. -/
theorem C10_empty_finish_fails :
    (∀ (w : SSTableWriter) (now : Time), w.entries = [] →
      w.finish now = .error (.StorageError ("Cannot write empty SSTable"))) ∧
    (∀ (w : SSTableWriter) (now : Time) (m : SSTableMetadata),
      w.finish now = .ok m →
      0 < m.num_entries ∧ m.num_entries = w.entries.length) := by
  constructor
  · intro w now h
    exact SSTableWriter.finish_empty now h
  · intro w now m h
    obtain ⟨h1, h2⟩ := SSTableWriter.finish_ok h
    refine ⟨?_, h1⟩
    rw [h1]
    exact List.length_pos.mpr h2

/-- C9: on an SSTable whose index keys are strictly ascending and whose
bloom filter answers true for every device identifier present in the index,
`scan` returns exactly the frames whose key lies in the inclusive range
from `(device, start or i64 MIN, 0)` to `(device, end or i64 MAX, u64 MAX)`,
in index (hence ascending key) order; when the bloom filter rejects the
device it returns empty immediately. -/
theorem C9_scan_range (hash : String → Nat → Nat) (r : SSTableReader)
    (dev : DevEui) (start_time end_time : Option Time)
    (hsorted : (r.index.map Prod.fst).Pairwise (· < ·))
    (hbloom : ∀ p ∈ r.index,
      r.metadata.bloom_filter.contains hash p.1.dev_eui = true) :
    r.scan hash dev start_time end_time =
      (r.index.filter (fun p =>
        MemtableKey.range_start dev start_time ≤ p.1 ∧
          p.1 ≤ MemtableKey.range_end dev end_time)).map Prod.snd ∧
    (r.might_contain hash dev = false →
      r.scan hash dev start_time end_time = []) := by
  have hpairs : r.index.Pairwise (fun p q => p.1 < q.1) :=
    List.pairwise_map.mp hsorted
  by_cases hc : r.might_contain hash dev
  · constructor
    · unfold SSTableReader.scan
      rw [if_neg (by simp [hc])]
      dsimp only
      rw [drop_findIdx_eq_dropWhile_not
        (fun e => decide (MemtableKey.range_start dev start_time ≤ e.1))
        r.index]
      rw [dropWhile_not_eq_filter (R := fun p q => p.1 < q.1)
        (fun a b hab ha => by
          simp only [decide_eq_true_eq] at *
          exact le_trans ha (le_of_lt hab)) hpairs]
      rw [takeWhile_eq_filter (R := fun p q => p.1 < q.1)
        (fun a b hab hb => by
          simp only [decide_eq_true_eq] at *
          exact le_trans (le_of_lt hab) hb) (hpairs.filter _)]
      rw [List.filter_filter, List.filter_filter]
      congr 1
      apply List.filter_congr
      intro p _
      by_cases h1 : MemtableKey.range_start dev start_time ≤ p.1 <;>
        by_cases h2 : p.1 ≤ MemtableKey.range_end dev end_time <;>
        simp [h1, h2]
    · intro hfalse
      rw [hfalse] at hc
      exact absurd hc (by simp)
  · have hscan : r.scan hash dev start_time end_time = [] := by
      unfold SSTableReader.scan
      rw [if_pos (by simpa using hc)]
    refine ⟨?_, fun _ => hscan⟩
    rw [hscan]
    have hfe : r.index.filter (fun p =>
        MemtableKey.range_start dev start_time ≤ p.1 ∧
          p.1 ≤ MemtableKey.range_end dev end_time) = [] := by
      rw [List.filter_eq_nil_iff]
      intro p hp hdec
      simp only [decide_eq_true_eq] at hdec
      have hdev : p.1.dev_eui = dev.normalized :=
        MemtableKey.dev_eui_of_mem_range hdec.1 hdec.2
      have := hbloom p hp
      rw [hdev] at this
      unfold SSTableReader.might_contain at hc
      exact hc this
    rw [hfe]
    rfl

/-- Concrete uplink frame used by the witnesses, parameterized by its
timestamp. -/
def exampleUplinkAt (t : Time) : Frame := .Uplink
  { dev_eui := { raw := "0123456789abcdef" }
    application_id := { raw := "app-a" }
    device_name := none
    received_at := t
    f_port := 1
    f_cnt := 42
    confirmed := false
    adr := true
    dr := { modulation := "LORA", bandwidth := 125000, spreading_factor := 7,
            bitrate := none }
    frequency := 868100000
    rx_info := []
    decoded_payload := none
    raw_payload := none }

/-- Concrete stand-in for the external 64-bit hash in witnesses. -/
def exampleHash : String → Nat → Nat := fun s i => s.length + i

/-- One-bit bloom filter with its single bit set: accepts everything. -/
def exampleBloomFull : BloomFilter :=
  { bits := [true], num_hash_functions := 1, num_bits := 1 }

/-- Concrete device identifier used by the witnesses. -/
def exampleDev : DevEui := { raw := "0123456789abcdef" }

/-- Concrete two-entry SSTable reader used by the witnesses. -/
def exampleReader : SSTableReader :=
  { id := 1
    path := 1
    metadata :=
      { id := 1
        created_at := 0
        num_entries := 2
        min_key := { dev_eui := "0123456789abcdef", timestamp := 5, sequence := 0 }
        max_key := { dev_eui := "0123456789abcdef", timestamp := 9, sequence := 1 }
        bloom_filter := exampleBloomFull
        application_ids := [] }
    index :=
      [({ dev_eui := "0123456789abcdef", timestamp := 5, sequence := 0 },
          exampleUplinkAt 5),
        ({ dev_eui := "0123456789abcdef", timestamp := 9, sequence := 1 },
          exampleUplinkAt 9)] }

/-- Witness for C9: scanning the concrete reader from timestamp 6 returns
exactly the in-range entries. -/
theorem C9_scan_witness :
    SSTableReader.scan exampleHash exampleReader exampleDev (some 6) none =
      (exampleReader.index.filter (fun p =>
        MemtableKey.range_start exampleDev (some 6) ≤ p.1 ∧
          p.1 ≤ MemtableKey.range_end exampleDev none)).map Prod.snd :=
  (C9_scan_range exampleHash exampleReader exampleDev (some 6) none
    (by decide) (by decide)).1

theorem foldlM_add_ok (hash : String → Nat → Nat) :
    ∀ (entries : List (MemtableKey × Frame)) (w : SSTableWriter),
      ((w.entries.map Prod.fst) ++ entries.map Prod.fst).Pairwise (· < ·) →
      ∃ w2,
        entries.foldlM (fun w p => SSTableWriter.add hash w p.1 p.2) w =
          .ok w2 ∧ w2.entries = w.entries ++ entries
  | [], w, _ => ⟨w, rfl, by simp⟩
  | p :: rest, w, hp => by
    have hadd : ∃ w2, SSTableWriter.add hash w p.1 p.2 = .ok w2 := by
      rw [SSTableWriter.add_ok_iff]
      cases hl : w.entries.getLast? with
      | none =>
        exact Or.inl (List.getLast?_eq_none_iff.mp hl)
      | some last =>
        refine Or.inr ⟨last, rfl, ?_⟩
        have hmem : last ∈ w.entries := List.mem_of_mem_getLast? hl
        exact (List.pairwise_append.mp hp).2.2 last.1
          (List.mem_map_of_mem Prod.fst hmem) p.1 (by simp)
    obtain ⟨w2, hw2⟩ := hadd
    have hent : w2.entries = w.entries ++ [p] := by
      have h2 := SSTableWriter.add_ok_entries hw2
      simpa using h2
    have hp2 :
        ((w2.entries.map Prod.fst) ++ rest.map Prod.fst).Pairwise (· < ·) := by
      rw [hent]
      simp only [List.map_append, List.map_cons] at hp ⊢
      simpa [List.append_assoc, List.singleton_append] using hp
    obtain ⟨w3, hw3, hent3⟩ := foldlM_add_ok hash rest w2 hp2
    refine ⟨w3, ?_, ?_⟩
    · rw [List.foldlM_cons, hw2]
      simpa using hw3
    · rw [hent3, hent]
      simp

theorem compact_merged_pairwise (inputs : List SSTableReader) :
    (dedupLastAdjacent
      (stableSortBy keyPairLe (compactAllEntries inputs))).Pairwise
        (fun p q => p.1 < q.1) :=
  pairwise_lt_dedupLastAdjacent
    (pairwise_stableSortBy keyPairLe_trans keyPairLe_total _)

theorem compact_run (hash : String → Nat → Nat) (bloom0 : BloomFilter)
    (now : Time) (mgr : CompactionManager) (inputs : List SSTableReader)
    (hne : ¬ inputs.isEmpty)
    (hmne : dedupLastAdjacent
      (stableSortBy keyPairLe (compactAllEntries inputs)) ≠ []) :
    ∃ meta,
      CompactionManager.compact hash bloom0 now mgr inputs =
        .ok ((dedupLastAdjacent
            (stableSortBy keyPairLe (compactAllEntries inputs)), meta,
          inputs.map (fun r => r.path)), (mgr.allocate_sstable_id).2) := by
  have hpair :
      (((SSTableWriter.new (mgr.allocate_sstable_id).1 bloom0).entries.map
          Prod.fst) ++
        (dedupLastAdjacent
          (stableSortBy keyPairLe (compactAllEntries inputs))).map
          Prod.fst).Pairwise (· < ·) := by
    simp only [SSTableWriter.new, List.map_nil, List.nil_append]
    exact List.pairwise_map.mpr (compact_merged_pairwise inputs)
  obtain ⟨w2, hw2, hent⟩ := foldlM_add_ok hash
    (dedupLastAdjacent (stableSortBy keyPairLe (compactAllEntries inputs)))
    (SSTableWriter.new (mgr.allocate_sstable_id).1 bloom0) hpair
  have hent2 : w2.entries =
      dedupLastAdjacent (stableSortBy keyPairLe (compactAllEntries inputs)) := by
    rw [hent]
    simp [SSTableWriter.new]
  have hfin : ∃ meta, w2.finish now = .ok meta := by
    unfold SSTableWriter.finish
    cases he : w2.entries with
    | nil => exact absurd (hent2 ▸ he).symm (Ne.symm hmne)
    | cons e rest => exact ⟨_, rfl⟩
  obtain ⟨meta, hmeta⟩ := hfin
  refine ⟨meta, ?_⟩
  unfold CompactionManager.compact
  rw [if_neg hne]
  dsimp only
  rw [hw2]
  show (Except.ok w2 >>= fun w =>
    (w.finish now) >>= fun meta2 => pure ((w.entries, meta2,
      inputs.map (fun r => r.path)), (mgr.allocate_sstable_id).2)) = _
  rw [show (Except.ok w2 >>= fun w =>
      (w.finish now) >>= fun meta2 => pure ((w.entries, meta2,
        inputs.map (fun r => r.path)), (mgr.allocate_sstable_id).2)) =
      ((w2.finish now) >>= fun meta2 => pure ((w2.entries, meta2,
        inputs.map (fun r => r.path)), (mgr.allocate_sstable_id).2)) from rfl]
  rw [hmeta]
  show Except.ok ((w2.entries, meta,
    inputs.map (fun r => r.path)), (mgr.allocate_sstable_id).2) = _
  rw [hent2]

theorem compact_ok_entries (hash : String → Nat → Nat)
    (bloom0 : BloomFilter) (now : Time) (mgr : CompactionManager)
    (inputs : List SSTableReader)
    (out : (List (MemtableKey × Frame) × SSTableMetadata × List Nat) ×
      CompactionManager)
    (hok : CompactionManager.compact hash bloom0 now mgr inputs = .ok out) :
    out.1.1 =
      dedupLastAdjacent (stableSortBy keyPairLe (compactAllEntries inputs)) := by
  by_cases hne : inputs.isEmpty
  · unfold CompactionManager.compact at hok
    rw [if_pos hne] at hok
    exact absurd hok (by simp)
  · by_cases hmne : dedupLastAdjacent
        (stableSortBy keyPairLe (compactAllEntries inputs)) = []
    · have herr : CompactionManager.compact hash bloom0 now mgr inputs =
          .error (.StorageError ("Cannot write empty SSTable")) := by
        unfold CompactionManager.compact
        rw [if_neg hne]
        dsimp only
        rw [hmne]
        rfl
      rw [herr] at hok
      exact absurd hok (by simp)
    · obtain ⟨meta, hcomp⟩ := compact_run hash bloom0 now mgr inputs hne hmne
      rw [hcomp] at hok
      injection hok with h2
      rw [← h2]

/-- C4: for every successful compaction, the output SSTable's key list is
duplicate-free; its key set is exactly the set of re-keyed (sequence-zero)
`(device, timestamp)` pairs occurring across the inputs; every such key has
sequence zero; and the frame kept for a key is the last occurrence of that
key across the inputs in processing order — the one from the input
processed last among those containing it. -/
theorem C4_compaction_union_dedup (hash : String → Nat → Nat)
    (bloom0 : BloomFilter) (now : Time) (mgr : CompactionManager)
    (inputs : List SSTableReader)
    (out : (List (MemtableKey × Frame) × SSTableMetadata × List Nat) ×
      CompactionManager)
    (hok : CompactionManager.compact hash bloom0 now mgr inputs = .ok out) :
    ((out.1.1.map Prod.fst).Nodup) ∧
    (∀ k : MemtableKey,
      k ∈ out.1.1.map Prod.fst ↔
        k ∈ (compactAllEntries inputs).map Prod.fst) ∧
    (∀ k ∈ (compactAllEntries inputs).map Prod.fst, k.sequence = 0) ∧
    (∀ k f, (k, f) ∈ out.1.1 →
      ((compactAllEntries inputs).filter (fun e => e.1 = k)).getLast? =
        some (k, f)) := by
  have hwritten := compact_ok_entries hash bloom0 now mgr inputs out hok
  have hsortedle :
      (stableSortBy keyPairLe (compactAllEntries inputs)).Pairwise
        (fun a b => keyPairLe a b = true) :=
    pairwise_stableSortBy keyPairLe_trans keyPairLe_total _
  refine ⟨?_, ?_, ?_, ?_⟩
  · rw [hwritten]
    exact (List.pairwise_map.mpr (compact_merged_pairwise inputs)).imp
      (fun h => ne_of_lt h)
  · intro k
    rw [hwritten, key_mem_dedupLastAdjacent]
    constructor
    · intro h
      rcases List.mem_map.mp h with ⟨p, hp, hk⟩
      rw [← hk]
      exact List.mem_map_of_mem Prod.fst (mem_stableSortBy.mp hp)
    · intro h
      rcases List.mem_map.mp h with ⟨p, hp, hk⟩
      rw [← hk]
      exact List.mem_map_of_mem Prod.fst (mem_stableSortBy.mpr hp)
  · intro k hk
    rcases List.mem_map.mp hk with ⟨p, hp, hk2⟩
    rcases List.mem_flatMap.mp hp with ⟨r, _, hpr⟩
    rcases List.mem_map.mp hpr with ⟨f, _, hf⟩
    rw [← hk2, ← hf]
    rfl
  · intro k f hmem
    rw [hwritten] at hmem
    have h1 := getLast_filter_dedupLastAdjacent hsortedle hmem
    rw [filter_key_stableSortBy] at h1
    exact h1

/-- Second uplink variant used by the C4 witness: same key fields, a
different frame counter, so the last-wins choice is observable. -/
def exampleUplinkB (t : Time) : Frame := .Uplink
  { dev_eui := { raw := "0123456789abcdef" }
    application_id := { raw := "app-a" }
    device_name := none
    received_at := t
    f_port := 1
    f_cnt := 43
    confirmed := false
    adr := true
    dr := { modulation := "LORA", bandwidth := 125000, spreading_factor := 7,
            bitrate := none }
    frequency := 868100000
    rx_info := []
    decoded_payload := none
    raw_payload := none }

/-- One-entry input SSTable holding `exampleUplinkAt 7`. -/
def exampleInputA : SSTableReader :=
  { id := 2
    path := 2
    metadata :=
      { id := 2
        created_at := 0
        num_entries := 1
        min_key := { dev_eui := "0123456789abcdef", timestamp := 7, sequence := 0 }
        max_key := { dev_eui := "0123456789abcdef", timestamp := 7, sequence := 0 }
        bloom_filter := exampleBloomFull
        application_ids := [] }
    index :=
      [({ dev_eui := "0123456789abcdef", timestamp := 7, sequence := 0 },
          exampleUplinkAt 7)] }

/-- One-entry input SSTable holding `exampleUplinkB 7`: same key pair as
`exampleInputA`, different frame. -/
def exampleInputB : SSTableReader :=
  { id := 3
    path := 3
    metadata :=
      { id := 3
        created_at := 0
        num_entries := 1
        min_key := { dev_eui := "0123456789abcdef", timestamp := 7, sequence := 0 }
        max_key := { dev_eui := "0123456789abcdef", timestamp := 7, sequence := 0 }
        bloom_filter := exampleBloomFull
        application_ids := [] }
    index :=
      [({ dev_eui := "0123456789abcdef", timestamp := 7, sequence := 0 },
          exampleUplinkB 7)] }

/-- Key shared by both C4 witness inputs after re-keying. -/
def exampleKey7 : MemtableKey :=
  { dev_eui := "0123456789abcdef", timestamp := 7, sequence := 0 }

/-- Witness for C4: compacting the two one-entry inputs that share the
`(device, timestamp)` pair keeps exactly one entry — the frame of the input
processed last. -/
theorem C4_compaction_witness :
    ((([(exampleKey7, exampleUplinkB 7)] :
        List (MemtableKey × Frame)).map Prod.fst).Nodup) ∧
    (∀ k : MemtableKey,
      k ∈ ([(exampleKey7, exampleUplinkB 7)] :
          List (MemtableKey × Frame)).map Prod.fst ↔
        k ∈ (compactAllEntries [exampleInputA, exampleInputB]).map
          Prod.fst) ∧
    (∀ k ∈ (compactAllEntries [exampleInputA, exampleInputB]).map Prod.fst,
      k.sequence = 0) ∧
    (∀ k f,
      (k, f) ∈ ([(exampleKey7, exampleUplinkB 7)] :
          List (MemtableKey × Frame)) →
      ((compactAllEntries [exampleInputA, exampleInputB]).filter
        (fun e => e.1 = k)).getLast? = some (k, f)) :=
  C4_compaction_union_dedup exampleHash exampleBloomFull 0
    (CompactionManager.mk 3 5) [exampleInputA, exampleInputB]
    (([(exampleKey7, exampleUplinkB 7)],
      { id := 5
        created_at := 0
        num_entries := 1
        min_key := exampleKey7
        max_key := exampleKey7
        bloom_filter := BloomFilter.mk [true] 1 1
        application_ids := ["app-a"] },
      [2, 3]), CompactionManager.mk 3 6) rfl

/-- Modelled from the spec (the reading claim C3 takes of §4.2): every
record whose magic, checksum and version are good contributes its decoded
frame, regardless of surrounding bad records. -/
def specReplaySegment (crc : List Nat → Nat)
    (decode : List Nat → Option Frame) (seg : List WalRecord) : List Frame :=
  seg.filterMap (fun r =>
    if r.magic = WAL_MAGIC ∧ crc (walChecksumInput r) = r.checksum ∧
        r.version = WAL_VERSION then decode r.payload else none)

theorem replay_segment_eq (crc : List Nat → Nat)
    (decode : List Nat → Option Frame) :
    ∀ seg, WriteAheadLog.replay_segment crc decode seg =
      (seg.takeWhile (fun r => r.magic == WAL_MAGIC)).filterMap
        (fun r =>
          if crc (walChecksumInput r) = r.checksum ∧
              r.version = WAL_VERSION then decode r.payload else none)
  | [] => rfl
  | r :: rest => by
    have htw : (r :: rest).takeWhile (fun r2 => r2.magic == WAL_MAGIC) =
        (if r.magic == WAL_MAGIC then
          r :: rest.takeWhile (fun r2 => r2.magic == WAL_MAGIC) else []) := by
      simp [List.takeWhile_cons]
    by_cases hm : r.magic = WAL_MAGIC
    · rw [htw, if_pos (by simpa using hm), List.filterMap_cons]
      unfold WriteAheadLog.replay_segment
      rw [if_neg (by simpa using hm)]
      by_cases hcrc : crc (walChecksumInput r) = r.checksum
      · rw [if_neg (by simpa using hcrc)]
        by_cases hv : r.version = WAL_VERSION
        · rw [if_neg (by simpa using hv), if_pos ⟨hcrc, hv⟩]
          cases hd : decode r.payload with
          | none =>
            dsimp only
            exact replay_segment_eq crc decode rest
          | some f =>
            dsimp only
            rw [replay_segment_eq crc decode rest]
        · rw [if_pos (by simpa using hv), if_neg (by simp [hv])]
          dsimp only
          exact replay_segment_eq crc decode rest
      · rw [if_pos (by simpa using hcrc), if_neg (by simp [hcrc])]
        dsimp only
        exact replay_segment_eq crc decode rest
    · rw [htw, if_neg (by simpa using hm)]
      unfold WriteAheadLog.replay_segment
      rw [if_pos (by simpa using hm)]
      rfl

/-- C3 amended: replay visits every segment from 0 up to the latest; within
a segment, a record with bad checksum or unrecognized version (or an
undecodable payload) is skipped with a warning and replay continues, but a
record with bad magic ends that segment's replay, dropping its subsequent
records; the frames of the remaining well-formed records are returned in
order. -/
theorem C3_replay_amended (crc : List Nat → Nat)
    (decode : List Nat → Option Frame) (segments : List (List WalRecord)) :
    WriteAheadLog.replay crc decode segments =
      segments.flatMap (fun seg =>
        (seg.takeWhile (fun r => r.magic == WAL_MAGIC)).filterMap
          (fun r =>
            if crc (walChecksumInput r) = r.checksum ∧
                r.version = WAL_VERSION then decode r.payload else none)) := by
  unfold WriteAheadLog.replay
  congr 1
  funext seg
  exact replay_segment_eq crc decode seg

/-- Counterexample for C3: in a segment holding a bad-magic record followed
by a fully well-formed record, `replay_segment` stops at the first record
and returns nothing, while the claim's reading (skip the bad record,
continue with the subsequent ones) keeps the second record's frame. -/
theorem C3_replay_counterexample :
    WriteAheadLog.replay_segment (fun bytes => bytes.sum)
      (fun p => if p = [1] then some (exampleUplinkAt 5) else none)
      [WalRecord.mk 0 2 [1] 4, WalRecord.mk WAL_MAGIC 2 [1] 4] = [] ∧
    specReplaySegment (fun bytes => bytes.sum)
      (fun p => if p = [1] then some (exampleUplinkAt 5) else none)
      [WalRecord.mk 0 2 [1] 4, WalRecord.mk WAL_MAGIC 2 [1] 4] =
      [exampleUplinkAt 5] := by
  constructor
  · rfl
  · rfl

/-- C5 amended: executing a parsed query whose filter clause is absent
fails, before the storage engine is consulted (the same error for every
storage function, which is never applied), with the time-filter-required
message carried in the `QueryExecutionError` variant — the variant the
HTTP layer maps to a sanitized internal-error response, not to the
user-visible invalid-input kind. -/
theorem C5_missing_filter_amended
    (store : DevEui → Option Time → Option Time → List Frame)
    (serialize : Frame → Json) (parseJson : String → Option Json)
    (now : Time) (q : Query) (h : q.filter = none) :
    QueryExecutor.execute store serialize parseJson now q =
      .error (.QueryExecutionError
        ("Time filter is required for security. Use WHERE LAST, SINCE, or BETWEEN clause.")) := by
  unfold QueryExecutor.execute
  rw [h]
  rfl

/-- Witness for C5's amended theorem at a concrete filterless query. -/
theorem C5_missing_filter_witness :
    QueryExecutor.execute (fun _ _ _ => []) (fun _ => Json.null)
      (fun _ => none) 0
      (Query.mk .all (FromClause.mk ("0123456789abcdef")) none none) =
      .error (.QueryExecutionError
        ("Time filter is required for security. Use WHERE LAST, SINCE, or BETWEEN clause.")) :=
  C5_missing_filter_amended (fun _ _ _ => []) (fun _ => Json.null)
    (fun _ => none) 0
    (Query.mk .all (FromClause.mk ("0123456789abcdef")) none none) rfl

/-- Counterexample for C5 as stated: the error produced for a concrete
filterless query is the `QueryExecutionError` variant, which the response
mapping of the source treats as an internal error — HTTP 500 with the
discriminant QueryExecutionError — not as the user-visible 400
invalid-input kind the claim names. -/
theorem C5_missing_filter_counterexample :
    QueryExecutor.execute (fun _ _ _ => []) (fun _ => Json.null)
      (fun _ => none) 0
      (Query.mk .all (FromClause.mk ("0123456789abcdef")) none none) =
      .error (.QueryExecutionError
        ("Time filter is required for security. Use WHERE LAST, SINCE, or BETWEEN clause.")) ∧
    errorStatus (.QueryExecutionError
      ("Time filter is required for security. Use WHERE LAST, SINCE, or BETWEEN clause.")) = 500 ∧
    errorKindName (.QueryExecutionError
      ("Time filter is required for security. Use WHERE LAST, SINCE, or BETWEEN clause.")) =
      "QueryExecutionError" := by
  refine ⟨?_, rfl, rfl⟩
  rfl

theorem filter_frames_length_le (frames : List Frame)
    (select : SelectClause) :
    (QueryExecutor.filter_frames frames select).length ≤ frames.length := by
  cases select <;> simp [QueryExecutor.filter_frames] <;>
    exact List.length_filter_le _ _

/-- C6: every successful query execution returns at most
`min(user_limit, 10_000)` frames when a LIMIT was given and at most 10 000
otherwise; in particular no query ever returns more than 10 000 frames. -/
theorem C6_query_result_cap
    (store : DevEui → Option Time → Option Time → List Frame)
    (serialize : Frame → Json) (parseJson : String → Option Json)
    (now : Time) (q : Query) (out : QueryResult)
    (hok : QueryExecutor.execute store serialize parseJson now q = .ok out) :
    out.frames.length ≤
      min (q.limit.getD MAX_QUERY_RESULTS) MAX_QUERY_RESULTS ∧
    out.total_frames = out.frames.length ∧
    out.frames.length ≤ MAX_QUERY_RESULTS := by
  unfold QueryExecutor.execute at hok
  by_cases hfil : q.filter.isNone
  · rw [if_pos hfil] at hok
    exact absurd hok (by simp)
  · rw [if_neg hfil] at hok
    cases hdev : DevEui.new q.from_clause.dev_eui with
    | error e =>
      rw [hdev] at hok
      exact absurd hok (by simp)
    | ok dev =>
      rw [hdev] at hok
      dsimp only at hok
      injection hok with h2
      rw [← h2]
      dsimp only
      have hlen1 :
          (if (store dev (q.time_range now).1 (q.time_range now).2).length >
              min (q.limit.getD MAX_QUERY_RESULTS) MAX_QUERY_RESULTS then
            (store dev (q.time_range now).1 (q.time_range now).2).take
              (min (q.limit.getD MAX_QUERY_RESULTS) MAX_QUERY_RESULTS)
          else
            store dev (q.time_range now).1 (q.time_range now).2).length ≤
            min (q.limit.getD MAX_QUERY_RESULTS) MAX_QUERY_RESULTS := by
        by_cases hgt : (store dev (q.time_range now).1
            (q.time_range now).2).length >
            min (q.limit.getD MAX_QUERY_RESULTS) MAX_QUERY_RESULTS
        · rw [if_pos hgt]
          rw [List.length_take]
          exact min_le_left _ _
        · rw [if_neg hgt]
          exact le_of_not_lt hgt
      have hlen2 := filter_frames_length_le
        (if (store dev (q.time_range now).1 (q.time_range now).2).length >
            min (q.limit.getD MAX_QUERY_RESULTS) MAX_QUERY_RESULTS then
          (store dev (q.time_range now).1 (q.time_range now).2).take
            (min (q.limit.getD MAX_QUERY_RESULTS) MAX_QUERY_RESULTS)
        else store dev (q.time_range now).1 (q.time_range now).2) q.select
      refine ⟨?_, rfl, ?_⟩
      · rw [List.length_map]
        exact le_trans hlen2 hlen1
      · rw [List.length_map]
        exact le_trans (le_trans hlen2 hlen1) (min_le_right _ _)

/-- Witness for C6 at a concrete query over a three-frame store with
LIMIT 2. -/
theorem C6_query_result_cap_witness :
    (QueryResult.mk ("0123456789abcdef") 2
        [Json.obj [], Json.obj []]).frames.length ≤
      min ((Query.mk .all (FromClause.mk ("0123456789abcdef"))
        (some (.since 0)) (some 2)).limit.getD MAX_QUERY_RESULTS)
        MAX_QUERY_RESULTS ∧
    (QueryResult.mk ("0123456789abcdef") 2
        [Json.obj [], Json.obj []]).total_frames =
      (QueryResult.mk ("0123456789abcdef") 2
        [Json.obj [], Json.obj []]).frames.length ∧
    (QueryResult.mk ("0123456789abcdef") 2
        [Json.obj [], Json.obj []]).frames.length ≤ MAX_QUERY_RESULTS :=
  C6_query_result_cap
    (fun _ _ _ => [exampleUplinkAt 1, exampleUplinkAt 2, exampleUplinkAt 3])
    (fun _ => Json.obj []) (fun _ => none) 0
    (Query.mk .all (FromClause.mk ("0123456789abcdef"))
      (some (.since 0)) (some 2))
    (QueryResult.mk ("0123456789abcdef") 2 [Json.obj [], Json.obj []]) rfl

/-- Modelled from the spec (claim C1's definition of a "never" retention
policy): an application has a "never" policy when its per-application
policy has null days, or when it has no per-application policy and the
global policy is null — in both cases its data is to be kept forever, so an
SSTable containing it must be kept. -/
def specHasNeverPolicy (pol : RetentionPolicies) (app : String) : Bool :=
  match lookupAssoc pol.applications app with
  | some p => p.days.isNone
  | none => pol.global_days.isNone

/-- Concrete uplink frame with a chosen application id. -/
def exampleUplinkApp (t : Time) (app : String) : Frame := .Uplink
  { dev_eui := { raw := "0123456789abcdef" }
    application_id := { raw := app }
    device_name := none
    received_at := t
    f_port := 1
    f_cnt := 42
    confirmed := false
    adr := true
    dr := { modulation := "LORA", bandwidth := 125000, spreading_factor := 7,
            bitrate := none }
    frequency := 868100000
    rx_info := []
    decoded_payload := none
    raw_payload := none }

/-- Retention policies with a 7-day policy for `app-a` only and a null
global policy. -/
def examplePolicies : RetentionPolicies :=
  { global_days := none
    applications := [("app-a", RetentionPolicy.mk (some 7) 0 0)]
    check_interval_hours := 24 }

/-- SSTable whose frames belong to `app-a` and `app-b`, with maximum
timestamp 0 (far in the past relative to the evaluation's `now`). -/
def exampleRetentionReader : SSTableReader :=
  { id := 4
    path := 4
    metadata :=
      { id := 4
        created_at := 0
        num_entries := 2
        min_key := { dev_eui := "0123456789abcdef", timestamp := 0, sequence := 0 }
        max_key := { dev_eui := "0123456789abcdef", timestamp := 0, sequence := 1 }
        bloom_filter := exampleBloomFull
        application_ids := [] }
    index :=
      [({ dev_eui := "0123456789abcdef", timestamp := 0, sequence := 0 },
          exampleUplinkApp 0 ("app-a")),
        ({ dev_eui := "0123456789abcdef", timestamp := 0, sequence := 1 },
          exampleUplinkApp 0 ("app-b"))] }

/-- Engine state holding only the retention example SSTable. -/
def exampleRetentionEngine : StorageEngine :=
  { memtable := Memtable.new
    sstables := [exampleRetentionReader]
    compaction_manager := CompactionManager.mk 3 5
    device_registry := []
    retention_policies := examplePolicies }

/-- C1 evaluation at the failing input: application `app-b` has a "never"
policy in the claim's (and spec §4.8's) sense — no per-application policy
while the global policy is null — and is contained in the SSTable, yet
`enforce_retention` at `now` = 10 days (in microseconds) deletes the
SSTable (its id is returned as deleted and the in-memory list becomes
empty), because the per-application loop lets `app-a`'s 7-day policy alone
drive the decision and ignores `app-b`. -/
theorem C1_retention_eval :
    specHasNeverPolicy examplePolicies ("app-b") = true ∧
    "app-b" ∈ exampleRetentionReader.application_ids ∧
    (StorageEngine.enforce_retention 864000000000
      exampleRetentionEngine).1 = [4] ∧
    (StorageEngine.enforce_retention 864000000000
      exampleRetentionEngine).2.sstables = [] := by
  refine ⟨rfl, by decide, rfl, rfl⟩

/-- Concrete uplink frame whose device identifier uses uppercase hex. -/
def exampleUplinkUpper : Frame := .Uplink
  { dev_eui := { raw := "0123456789ABCDEF" }
    application_id := { raw := "app-a" }
    device_name := none
    received_at := 5
    f_port := 1
    f_cnt := 42
    confirmed := false
    adr := true
    dr := { modulation := "LORA", bandwidth := 125000, spreading_factor := 7,
            bitrate := none }
    frequency := 868100000
    rx_info := []
    decoded_payload := none
    raw_payload := none }

/-- The uppercase spelling of the example device identifier. -/
def exampleDevUpper : DevEui := { raw := "0123456789ABCDEF" }

/-- Engine state after one write of the uppercase-device frame: the
memtable holds the frame under the normalized key and the registry holds
the device under its normalized (lowercase) key. -/
def exampleUpperEngine : StorageEngine :=
  { memtable := Memtable.new.insert exampleUplinkUpper
    sstables := []
    compaction_manager := CompactionManager.mk 3 5
    device_registry :=
      DeviceRegistry.register_or_update [] 0 exampleDevUpper none ("app-a")
    retention_policies := examplePolicies }

/-- C2 evaluation at the failing input: the device identifier
`0123456789ABCDEF` is valid (any mix of case is accepted), `delete_device`
returns count 1 and empties the memtable, but the device registry still
contains the device under its normalized key `0123456789abcdef`, because
removal uses the identifier exactly as passed while registry keys are
normalized. -/
theorem C2_delete_device_eval :
    DevEui.validateB exampleDevUpper = true ∧
    (match StorageEngine.delete_device exampleHash exampleBloomFull 0
        exampleUpperEngine exampleDevUpper with
    | .ok r =>
      (r.1 == 1) &&
        (lookupAssoc r.2.device_registry ("0123456789abcdef")).isSome &&
        r.2.memtable.data.isEmpty
    | .error _ => false) = true := by
  refine ⟨by decide, rfl⟩

end LoRaDB
